import Mathlib

/-!
Shallow embedding of the cinder bytecode fuzzer
(`Tools/fuzzer/fuzzer/fuzzer.py`) and proofs about its mutation core.

Randomness is modelled by explicit draw streams: every function that calls
`random.randint` / `random.choice` in the Python source takes a list of raw
draws; a resampling loop consumes one draw per attempt and returns `none`
when the stream is exhausted (modelling a recursion that never returns).
-/

/-- Bound constants from the top of fuzzer.py. `sys.maxsize` is modelled for a
64-bit platform. -/
def STR_LEN_UPPER_BOUND : Nat := 100

def STR_LEN_LOWER_BOUND : Nat := 0

def INT_UPPER_BOUND : Int := 2 ^ 63 - 1

def INT_LOWER_BOUND : Int := -(2 ^ 63)

def OPARG_LOWER_BOUND : Int := 0

def OPARG_UPPER_BOUND : Int := 2 ^ 32 - 1

def CMP_OP_LENGTH : Int := 12

def INSTR_RANDOMIZATION_CHANCE : Nat := 50

namespace Fuzzer

/-- The class-level opcode sets of the `Fuzzer` class, transcribed in source
order (Python `set` literals; duplicates in the literal are kept, membership is
unaffected). -/
def INSTRS_WITH_OPARG_IN_CONSTS : List String :=
  ["LOAD_CONST", "LOAD_CLASS", "INVOKE_FUNCTION", "INVOKE_METHOD",
   "LOAD_FIELD", "STORE_FIELD", "CAST", "PRIMITIVE_BOX", "PRIMITIVE_UNBOX",
   "TP_ALLOC", "CHECK_ARGS", "BUILD_CHECKED_MAP", "BUILD_CHECKED_LIST",
   "PRIMITIVE_LOAD_CONST", "LOAD_LOCAL", "STORE_LOCAL", "REFINE_TYPE",
   "LOAD_METHOD_SUPER", "LOAD_ATTR_SUPER", "FUNC_CREDENTIAL",
   "READONLY_OPERATION"]

def INSTRS_WITH_OPARG_IN_VARNAMES : List String :=
  ["LOAD_FAST", "STORE_FAST", "DELETE_FAST"]

def INSTRS_WITH_OPARG_IN_NAMES : List String :=
  ["LOAD_NAME", "LOAD_GLOBAL", "STORE_GLOBAL", "DELETE_GLOBAL", "STORE_NAME",
   "DELETE_NAME", "IMPORT_NAME", "IMPORT_FROM", "STORE_ATTR", "LOAD_ATTR",
   "DELETE_ATTR", "LOAD_METHOD"]

def INSTRS_WITH_OPARG_IN_CLOSURE : List String :=
  ["LOAD_DEREF", "STORE_DEREF", "DELETE_DEREF", "LOAD_CLASSDEREF",
   "LOAD_CLOSURE"]

def INSTRS_WITH_BRANCHES : List String :=
  ["FOR_ITER", "JUMP_ABSOLUTE", "JUMP_FORWARD", "JUMP_IF_FALSE_OR_POP",
   "JUMP_IF_TRUE_OR_POP", "POP_JUMP_IF_FALSE", "POP_JUMP_IF_TRUE",
   "RETURN_VALUE", "RAISE_VARARGS", "JUMP_ABSOLUTE", "JUMP_FORWARD"]

def INSTRS_WITH_STACK_EFFECT_0 : List String :=
  ["ROT_TWO", "ROT_THREE", "ROT_FOUR", "NOP", "UNARY_POSITIVE",
   "UNARY_NEGATIVE", "UNARY_NOT", "UNARY_INVERT", "GET_AITER", "GET_ITER",
   "GET_YIELD_FROM_ITER", "GET_AWAITABLE", "SETUP_ANNOTATIONS", "YIELD_VALUE",
   "POP_BLOCK", "DELETE_NAME", "DELETE_GLOBAL", "LOAD_ATTR", "JUMP_FORWARD",
   "JUMP_ABSOLUTE", "DELETE_FAST", "DELETE_DEREF", "EXTENDED_ARG"]

def INSTRS_WITH_STACK_EFFECT_1 : List String :=
  ["DUP_TOP", "GET_ANEXT", "BEFORE_ASYNC_WITH", "LOAD_BUILD_CLASS",
   "LOAD_NAME", "IMPORT_FROM", "LOAD_GLOBAL", "LOAD_FAST", "LOAD_CLOSURE",
   "LOAD_DEREF", "FUNC_CREDENTIAL", "LOAD_CLASSDEREF", "LOAD_METHOD"]

def INSTRS_WITH_STACK_EFFECT_2 : List String :=
  ["DUP_TOP_TWO", "WITH_CLEANUP_START"]

def INSTRS_WITH_STACK_EFFECT_NEG_1 : List String :=
  ["POP_TOP", "BINARY_MATRIX_MULTIPLY", "INPLACE_MATRIX_MULTIPLY",
   "BINARY_POWER", "BINARY_MULTIPLY", "BINARY_MODULO", "BINARY_ADD",
   "BINARY_SUBTRACT", "BINARY_SUBSCR", "BINARY_FLOOR_DIVIDE",
   "BINARY_TRUE_DIVIDE", "INPLACE_FLOOR_DIVIDE", "INPLACE_TRUE_DIVIDE",
   "INPLACE_ADD", "INPLACE_SUBTRACT", "INPLACE_MULTIPLY", "INPLACE_MODULO",
   "BINARY_LSHIFT", "BINARY_RSHIFT", "BINARY_AND", "BINARY_XOR", "BINARY_OR",
   "INPLACE_POWER", "PRINT_EXPR", "YIELD_FROM", "INPLACE_LSHIFT",
   "INPLACE_RSHIFT", "INPLACE_AND", "INPLACE_XOR", "INPLACE_OR",
   "RETURN_VALUE", "IMPORT_STAR", "STORE_NAME", "DELETE_ATTR", "STORE_GLOBAL",
   "IMPORT_NAME", "POP_JUMP_IF_FALSE", "POP_JUMP_IF_TRUE", "STORE_FAST",
   "STORE_DEREF", "LIST_APPEND", "SET_ADD", "LOAD_METHOD_SUPER"]

def INSTRS_WITH_STACK_EFFECT_NEG_2 : List String :=
  ["DELETE_SUBSCR", "STORE_ATTR", "MAP_ADD", "LOAD_ATTR_SUPER"]

def INSTRS_WITH_STACK_EFFECT_NEG_3 : List String :=
  ["STORE_SUBSCR", "WITH_CLEANUP_FINISH", "POP_EXCEPT"]

def INSTRS_WITH_OPARG_AFFECTING_STACK : List String :=
  ["MAKE_FUNCTION", "CALL_FUNCTION", "BUILD_MAP", "BUILD_MAP_UNPACK",
   "BUILD_MAP_UNPACK_WITH_CALL", "BUILD_CONST_KEY_MAP", "UNPACK_SEQUENCE",
   "UNPACK_EX", "BUILD_TUPLE", "BUILD_LIST", "BUILD_SET", "BUILD_STRING",
   "BUILD_LIST_UNPACK", "BUILD_TUPLE_UNPACK", "BUILD_TUPLE_UNPACK_WITH_CALL",
   "BUILD_SET_UNPACK", "CALL_FUNCTION_KW", "CALL_FUNCTION_EX", "CALL_METHOD",
   "RAISE_VARARGS"]

end Fuzzer

/-- Python strings are modelled as lists of characters. -/
abbrev PyStr := List Char

/-- The Python values that occur as logical operands and constants in the
fuzzer: strings, ints, floats, complex numbers, tuples, frozensets, and
opaque values (code objects and the like) identified by a tag. A float is
modelled as a sign bit plus an integer magnitude, which is enough to express
every distinction the fuzzer's constant keys draw (in particular the two
zeros `0.0` and `-0.0`). -/
inductive PyVal where
  | int (n : Int)
  | str (s : PyStr)
  | float (neg : Bool) (m : Nat)
  | complex (negRe : Bool) (mRe : Nat) (negIm : Bool) (mIm : Nat)
  | tuple (xs : List PyVal)
  | frozenset (xs : List PyVal)
  | opaque_obj (tag : Nat)

/-- The numeric value of a modelled float (the sign of zero is invisible to
it, exactly as `0.0 == -0.0` in Python). -/
def floatVal (neg : Bool) (m : Nat) : Int :=
  if neg then -(m : Int) else (m : Int)

mutual

/-- Python value equality (the `==` used by dict lookups): numeric values
compare by value across int/float/complex (so the sign of a zero is ignored),
strings compare as strings, tuples elementwise, frozensets as sets, opaque
objects by identity. -/
def pyEq : PyVal → PyVal → Bool
  | .int n, .int m => n = m
  | .int n, .float bn bm => n = floatVal bn bm
  | .float bn bm, .int n => floatVal bn bm = n
  | .float an am, .float bn bm => floatVal an am = floatVal bn bm
  | .int n, .complex br mr bi mi => floatVal br mr = n && floatVal bi mi = 0
  | .complex br mr bi mi, .int n => floatVal br mr = n && floatVal bi mi = 0
  | .float an am, .complex br mr bi mi =>
      floatVal br mr = floatVal an am && floatVal bi mi = 0
  | .complex br mr bi mi, .float an am =>
      floatVal br mr = floatVal an am && floatVal bi mi = 0
  | .complex ar mr ai mi, .complex br nr bi ni =>
      floatVal ar mr = floatVal br nr && floatVal ai mi = floatVal bi ni
  | .str s, .str t => s = t
  | .tuple xs, .tuple ys => pyEqList xs ys
  | .frozenset xs, .frozenset ys => pyEqSubset xs ys && pyEqSupset xs ys
  | .opaque_obj a, .opaque_obj b => a = b
  | _, _ => false
termination_by v w => sizeOf v + sizeOf w
decreasing_by all_goals (simp; try omega)

/-- Elementwise Python equality of two lists (tuple comparison). -/
def pyEqList : List PyVal → List PyVal → Bool
  | [], [] => true
  | x :: xs, y :: ys => pyEq x y && pyEqList xs ys
  | _, _ => false
termination_by xs ys => sizeOf xs + sizeOf ys
decreasing_by all_goals (simp; try omega)

/-- Does the value Python-equal some element of the list. -/
def pyEqMem : PyVal → List PyVal → Bool
  | _, [] => false
  | x, y :: ys => pyEq x y || pyEqMem x ys
termination_by x ys => sizeOf x + sizeOf ys
decreasing_by all_goals (simp; try omega)

/-- Every element of the first list is Python-equal to some element of the
second (one direction of frozenset equality). -/
def pyEqSubset : List PyVal → List PyVal → Bool
  | [], _ => true
  | x :: xs, ys => pyEqMem x ys && pyEqSubset xs ys
termination_by xs ys => sizeOf xs + sizeOf ys
decreasing_by all_goals (simp; try omega)

/-- Does some element of the list Python-equal the value. -/
def pyEqMemL : List PyVal → PyVal → Bool
  | [], _ => false
  | x :: xs, y => pyEq x y || pyEqMemL xs y
termination_by xs y => sizeOf xs + sizeOf y
decreasing_by all_goals (simp; try omega)

/-- Every element of the second list is Python-equal to some element of the
first (the other direction of frozenset equality). -/
def pyEqSupset : List PyVal → List PyVal → Bool
  | _, [] => true
  | xs, y :: ys => pyEqMemL xs y && pyEqSupset xs ys
termination_by xs ys => sizeOf xs + sizeOf ys
decreasing_by all_goals (simp; try omega)

end

/-- The runtime type tag `type(value)` used as the first component of a
constant key. -/
inductive PyType where
  | int | str | float | complex | tuple | frozenset | opaque_obj
deriving DecidableEq

def typeOf : PyVal → PyType
  | .int _ => .int
  | .str _ => .str
  | .float _ _ => .float
  | .complex _ _ _ _ => .complex
  | .tuple _ => .tuple
  | .frozenset _ => .frozenset
  | .opaque_obj _ => .opaque_obj

/-- Modelled from the spec: `pyassem.sign` (not under src/) is the sign of a
float as produced by `math.copysign(1, x)`, which distinguishes `0.0` from
`-0.0` by the sign bit. -/
def pysign (neg : Bool) : Int :=
  if neg then -1 else 1

/-- The shapes of keys returned by `get_const_key`: a pair
`(type, value)`, a float triple `(type, value, sign)`, a complex quadruple
`(type, value, sign_real, sign_imag)`, or a composite triple
`(type, value, tuple_of_element_keys)`. -/
inductive ConstKey where
  | base (t : PyType) (v : PyVal)
  | flt (t : PyType) (v : PyVal) (sign : Int)
  | cpx (t : PyType) (v : PyVal) (signRe : Int) (signIm : Int)
  | comp (t : PyType) (v : PyVal) (elems : List ConstKey)

mutual

/-- `get_const_key` from fuzzer.py (the stateless copy of the pyassem
version): floats carry their zero-sign, complex numbers the signs of both
parts, tuples and frozensets recursively embed the keys of their elements. -/
def get_const_key : PyVal → ConstKey
  | .float neg m => .flt .float (.float neg m) (pysign neg)
  | .complex nr mr ni mi =>
      .cpx .complex (.complex nr mr ni mi) (pysign nr) (pysign ni)
  | .tuple xs => .comp .tuple (.tuple xs) (get_const_key_list xs)
  | .frozenset xs => .comp .frozenset (.frozenset xs) (get_const_key_list xs)
  | v => .base (typeOf v) v

/-- Keys of the elements of a composite constant, in order. -/
def get_const_key_list : List PyVal → List ConstKey
  | [] => []
  | x :: xs => get_const_key x :: get_const_key_list xs

end

mutual

/-- Python `==` on constant keys (they are Python tuples, so dict membership
in the constant pool compares them componentwise with `==`; tuples of
different lengths are unequal, and a numeric sign component never equals a
tuple-of-keys component). -/
def keyEq : ConstKey → ConstKey → Bool
  | .base t v, .base t' v' => t = t' && pyEq v v'
  | .flt t v s, .flt t' v' s' => t = t' && pyEq v v' && s = s'
  | .cpx t v sr si, .cpx t' v' sr' si' =>
      t = t' && pyEq v v' && sr = sr' && si = si'
  | .comp t v ks, .comp t' v' ks' => t = t' && pyEq v v' && keyEqList ks ks'
  | _, _ => false

/-- Componentwise key equality of the embedded element-key tuples. -/
def keyEqList : List ConstKey → List ConstKey → Bool
  | [], [] => true
  | k :: ks, l :: ls => keyEq k l && keyEqList ks ls
  | _, _ => false

end

/-!
Ordered unique tables and the per-unit constant pool. `pyassem.IndexedSet`
is not under src/, so it is modelled from the spec.
-/

/-- Modelled from the spec: `pyassem.IndexedSet` (not under src/) is an
insertion-ordered mapping from a key to a stable integer index. Its `keys`
field is a Python dict, modelled as an ordered association list with unique
keys; `get_index` is insert-or-lookup which, on a miss, appends the key with
index `len(keys)`; keys can be deleted explicitly (`del keys[k]`). -/
structure IndexedSet where
  keys : List (PyStr × Nat)
deriving DecidableEq

/-- Number of entries (`len`) of the table. -/
def IndexedSet.size (s : IndexedSet) : Nat :=
  s.keys.length

/-- Dict membership test `k in keys`. -/
def IndexedSet.containsKey (s : IndexedSet) (k : PyStr) : Bool :=
  s.keys.any (fun p => p.1 = k)

/-- Dict lookup `keys[k]`. -/
def IndexedSet.lookup (s : IndexedSet) (k : PyStr) : Option Nat :=
  (s.keys.find? (fun p => p.1 = k)).map (fun p => p.2)

/-- Insert-or-lookup: return the existing index, or append the key with index
`len(keys)`. Returns the index together with the updated table. -/
def IndexedSet.get_index (s : IndexedSet) (k : PyStr) : Nat × IndexedSet :=
  match s.lookup k with
  | some i => (i, s)
  | none => (s.keys.length, ⟨s.keys ++ [(k, s.keys.length)]⟩)

/-- Explicit deletion `del keys[k]`; `none` models the `KeyError` raised when
the key is absent. -/
def IndexedSet.delKey (s : IndexedSet) (k : PyStr) : Option IndexedSet :=
  if s.containsKey k then some ⟨s.keys.filter (fun p => !(p.1 = k : Bool))⟩
  else none

/-- The constant pool `graph.consts`: a Python dict from derived constant keys
to integer indices, modelled as an ordered association list whose keys are
compared with Python equality on keys (`keyEq`). -/
abbrev ConstDict := List (ConstKey × Nat)

/-- Dict lookup in the constant pool. -/
def constLookup (d : ConstDict) (k : ConstKey) : Option Nat :=
  (d.find? (fun p => keyEq p.1 k)).map (fun p => p.2)

/-- Dict membership in the constant pool. -/
def constContains (d : ConstDict) (k : ConstKey) : Bool :=
  d.any (fun p => keyEq p.1 k)

/-- Dict deletion `del consts[k]`; `none` models the `KeyError` on a missing
key. -/
def constDel (d : ConstDict) (k : ConstKey) : Option ConstDict :=
  if constContains d k then some (d.filter (fun p => !keyEq p.1 k))
  else none

/-- Dict assignment `consts[k] = v`: overwrite in place when the key is
present (insertion order preserved), else append. -/
def constAssign (d : ConstDict) (k : ConstKey) (v : Nat) : ConstDict :=
  if constContains d k then
    d.map (fun p => if keyEq p.1 k then (p.1, v) else p)
  else d ++ [(k, v)]

/-!
Random draws. `random.randint(a, b)` returns a uniform integer in the
inclusive range `[a, b]`; it is modelled by folding one raw draw into that
range. `random.choice(tuple(options))` is modelled by reducing one raw draw
modulo the number of options.
-/

/-- One `random.randint(lower, upper)` call: the raw draw `c` folded into the
inclusive range `[lower, upper]` (for a draw already in range this is the
identity). -/
def pyRandint (lower upper c : Int) : Int :=
  lower + (c - lower).emod (upper - lower + 1)

/-- One random string candidate of `generate_random_string`: a fresh string
whose length `random.randint(lower, upper)` lies in `[lower, upper]`; the raw
draw is a character list that is truncated to at most `upper` characters and
padded up to `lower`, which reaches exactly the strings the Python code can
produce at this call. -/
def clampStr (lower upper : Nat) (s : PyStr) : PyStr :=
  let t := s.take upper
  t ++ List.replicate (lower - t.length) 'a'

/-- `generate_random_string`: resample until the candidate differs from the
original; each attempt consumes one draw, and an exhausted stream models a
resampling recursion that never returns. -/
def generate_random_string (original : PyStr) (lower upper : Nat) :
    List PyStr → Option (PyStr × List PyStr)
  | [] => none
  | c :: rest =>
    let random_str := clampStr lower upper c
    if random_str = original then generate_random_string original lower upper rest
    else some (random_str, rest)

/-- `generate_random_integer`: resample until the candidate differs from the
original. -/
def generate_random_integer (original lower upper : Int) :
    List Int → Option (Int × List Int)
  | [] => none
  | c :: rest =>
    let random_int := pyRandint lower upper c
    if random_int = original then generate_random_integer original lower upper rest
    else some (random_int, rest)

/-- `generate_random_opcode`: draw `random.choice(tuple(options))` until the
chosen opcode differs from the original. -/
def generate_random_opcode (opcode : String) (options : List String) :
    List Nat → Option (String × List Nat)
  | [] => none
  | c :: rest =>
    let new_op := options.getD (c % options.length) ""
    if new_op = opcode then generate_random_opcode opcode options rest
    else some (new_op, rest)

/-- The draw streams threaded through the randomizers: integer draws for
`random.randint` and character-list draws for random string candidates. -/
structure Draws where
  ints : List Int
  strs : List PyStr
deriving DecidableEq

mutual

/-- `randomize_variable`: strings and integers are resampled within the
module bounds, tuples and frozensets are randomized elementwise, and any
other value (floats, code objects, ...) is returned unchanged. -/
def randomize_variable : PyVal → Draws → Option (PyVal × Draws)
  | .str s, d =>
    match generate_random_string s STR_LEN_LOWER_BOUND STR_LEN_UPPER_BOUND d.strs with
    | some (r, rest) => some (.str r, { d with strs := rest })
    | none => none
  | .int n, d =>
    match generate_random_integer n INT_LOWER_BOUND INT_UPPER_BOUND d.ints with
    | some (r, rest) => some (.int r, { d with ints := rest })
    | none => none
  | .tuple xs, d =>
    match randomize_variable_list xs d with
    | some (ys, d2) => some (.tuple ys, d2)
    | none => none
  | .frozenset xs, d =>
    match randomize_variable_list xs d with
    | some (ys, d2) => some (.frozenset ys, d2)
    | none => none
  | v, d => some (v, d)

/-- Elementwise randomization of a composite operand, threading the draw
streams left to right. -/
def randomize_variable_list : List PyVal → Draws → Option (List PyVal × Draws)
  | [], d => some ([], d)
  | x :: xs, d =>
    match randomize_variable x d with
    | some (y, d2) =>
      match randomize_variable_list xs d2 with
      | some (ys, d3) => some (y :: ys, d3)
      | none => none
    | none => none

end

/-!
Table replacement helpers and the opcode substitution engine.
-/

/-- An emitted instruction: symbolic opcode, logical operand, encoded operand
(`pyassem.Instruction` as the fuzzer uses it; block-target placeholders never
reach the randomizers). -/
structure Instruction where
  opcode : String
  oparg : PyVal
  ioparg : Int

/-- The live tables of the currently emitting compiled unit, as exposed by
`self.graph`. -/
structure GraphState where
  consts : ConstDict
  names : IndexedSet
  varnames : IndexedSet
  freevars : IndexedSet
  cellvars : IndexedSet

/-- Modelled from the spec: `graph.closure` (pyassem, not under src/) is the
combined captured-variable table; only its entry count is consulted by the
feasibility guard, so it is modelled as the total number of free plus cell
entries. -/
def closureSize (g : GraphState) : Nat :=
  g.freevars.size + g.cellvars.size

/-- `replace_closure_var`: delete the original name from whichever captured
table holds it (free variables are checked first, falling back to the cell
table) and insert-or-lookup the randomized name there. `none` models the
`KeyError` when the name is in neither table. -/
def replace_closure_var (name randomized_name : PyStr) (ioparg : Int)
    (freevars cellvars : IndexedSet) : Option (Int × IndexedSet × IndexedSet) :=
  if freevars.containsKey name then
    match freevars.delKey name with
    | some fv =>
      let r := fv.get_index randomized_name
      some ((r.1 : Int), r.2, cellvars)
    | none => none
  else
    match cellvars.delKey name with
    | some cv =>
      let r := cv.get_index randomized_name
      some ((r.1 : Int), freevars, r.2)
    | none => none

/-- `replace_name_var`: delete the original name if present, then
insert-or-lookup the randomized name; returns the new encoded operand and the
updated table. -/
def replace_name_var (name randomized_name : PyStr) (location : IndexedSet) :
    Nat × IndexedSet :=
  (if location.containsKey name then
      IndexedSet.mk (location.keys.filter (fun p => !(p.1 = name : Bool)))
    else location).get_index randomized_name

/-- `replace_const_var`: look up the old key's index, delete the old key and
assign the new key that same index. `none` models the `KeyError` when the old
key is absent. -/
def replace_const_var (old_key new_key : ConstKey) (consts : ConstDict) :
    Option (Nat × ConstDict) :=
  match constLookup consts old_key with
  | some oparg_index =>
    match constDel consts old_key with
    | some consts2 => some (oparg_index, constAssign consts2 new_key oparg_index)
    | none => none
  | none => none

/-- `generate_random_ioparg`: branch, variable-stack-effect and
constant-table instructions keep their encoded operand; `COMPARE_OP` draws
`random.randint(0, CMP_OP_LENGTH)`; everything else draws within the global
encoded-operand bounds. -/
def generate_random_ioparg (opcode : String) (ioparg : Int) (cs : List Int) :
    Option (Int × List Int) :=
  if opcode ∈ Fuzzer.INSTRS_WITH_BRANCHES
      ∨ opcode ∈ Fuzzer.INSTRS_WITH_OPARG_AFFECTING_STACK
      ∨ opcode ∈ Fuzzer.INSTRS_WITH_OPARG_IN_CONSTS then
    some (ioparg, cs)
  else if opcode = "COMPARE_OP" then
    generate_random_integer ioparg 0 CMP_OP_LENGTH cs
  else
    generate_random_integer ioparg OPARG_LOWER_BOUND OPARG_UPPER_BOUND cs

/-- `randomize_opcode`: branch instructions, variable-stack-effect
instructions and `LOAD_CONST` are returned unchanged; otherwise the first
fixed-stack-effect set containing the opcode supplies the replacement via
`generate_random_opcode`, and an opcode in no set is returned unchanged. -/
def randomize_opcode (opcode : String) (cs : List Nat) :
    Option (String × List Nat) :=
  if opcode ∈ Fuzzer.INSTRS_WITH_BRANCHES
      ∨ opcode ∈ Fuzzer.INSTRS_WITH_OPARG_AFFECTING_STACK
      ∨ opcode = "LOAD_CONST" then
    some (opcode, cs)
  else if opcode ∈ Fuzzer.INSTRS_WITH_STACK_EFFECT_0 then
    generate_random_opcode opcode Fuzzer.INSTRS_WITH_STACK_EFFECT_0 cs
  else if opcode ∈ Fuzzer.INSTRS_WITH_STACK_EFFECT_1 then
    generate_random_opcode opcode Fuzzer.INSTRS_WITH_STACK_EFFECT_1 cs
  else if opcode ∈ Fuzzer.INSTRS_WITH_STACK_EFFECT_2 then
    generate_random_opcode opcode Fuzzer.INSTRS_WITH_STACK_EFFECT_2 cs
  else if opcode ∈ Fuzzer.INSTRS_WITH_STACK_EFFECT_NEG_1 then
    generate_random_opcode opcode Fuzzer.INSTRS_WITH_STACK_EFFECT_NEG_1 cs
  else if opcode ∈ Fuzzer.INSTRS_WITH_STACK_EFFECT_NEG_2 then
    generate_random_opcode opcode Fuzzer.INSTRS_WITH_STACK_EFFECT_NEG_2 cs
  else if opcode ∈ Fuzzer.INSTRS_WITH_STACK_EFFECT_NEG_3 then
    generate_random_opcode opcode Fuzzer.INSTRS_WITH_STACK_EFFECT_NEG_3 cs
  else
    some (opcode, cs)

/-- `can_replace_oparg`: the feasibility guard checked before an opcode
substitution, requiring the table holding the original opcode's operand to
keep at least one entry after the deletion the substitution will perform. -/
def can_replace_oparg (opcode : String) (g : GraphState) : Bool :=
  if opcode ∈ Fuzzer.INSTRS_WITH_OPARG_IN_CONSTS then g.consts.length > 1
  else if opcode ∈ Fuzzer.INSTRS_WITH_OPARG_IN_NAMES then g.names.size > 1
  else if opcode ∈ Fuzzer.INSTRS_WITH_OPARG_IN_VARNAMES then g.varnames.size > 1
  else if opcode ∈ Fuzzer.INSTRS_WITH_OPARG_IN_CLOSURE then closureSize g > 1
  else true

/-- Extract the character list of a string operand; `none` models the runtime
type error the Python code would hit if a table-resident operand were not a
string. -/
def asStr : PyVal → Option PyStr
  | .str s => some s
  | _ => none

/-- The first half of `generate_oparg_for_randomized_opcode` (the source
comment `delete the original oparg`): delete the original opcode's operand
from its table, if it is table-resident. -/
def delete_original_oparg (original_opcode : String) (oparg : PyVal)
    (g : GraphState) : Option GraphState :=
  if original_opcode ∈ Fuzzer.INSTRS_WITH_OPARG_IN_CONSTS then
    match constDel g.consts (get_const_key oparg) with
    | some c => some { g with consts := c }
    | none => none
  else if original_opcode ∈ Fuzzer.INSTRS_WITH_OPARG_IN_NAMES then
    match asStr oparg with
    | some s =>
      match g.names.delKey s with
      | some ns => some { g with names := ns }
      | none => none
    | none => none
  else if original_opcode ∈ Fuzzer.INSTRS_WITH_OPARG_IN_VARNAMES then
    match asStr oparg with
    | some s =>
      match g.varnames.delKey s with
      | some vs => some { g with varnames := vs }
      | none => none
    | none => none
  else if original_opcode ∈ Fuzzer.INSTRS_WITH_OPARG_IN_CLOSURE then
    match asStr oparg with
    | some s =>
      if g.freevars.containsKey s then
        match g.freevars.delKey s with
        | some fv => some { g with freevars := fv }
        | none => none
      else
        match g.cellvars.delKey s with
        | some cv => some { g with cellvars := cv }
        | none => none
    | none => none
  else some g

/-- The second half of `generate_oparg_for_randomized_opcode` (the source
comment `replace with a new oparg that corresponds with the new
instruction`): synthesize a new operand for the randomized opcode and insert
it into that opcode's table if it is table-resident; an opcode outside every
table gets a random integer within the encoded-operand bounds. -/
def insert_new_oparg (randomized_opcode : String) (oparg : PyVal)
    (g2 : GraphState) (d : Draws) : Option (PyVal × GraphState × Draws) :=
  if randomized_opcode ∈ Fuzzer.INSTRS_WITH_OPARG_IN_CONSTS then
    match randomize_variable oparg d with
    | some (new_oparg, d2) =>
      some (new_oparg,
        { g2 with consts := constAssign g2.consts (get_const_key new_oparg) g2.consts.length },
        d2)
    | none => none
  else if randomized_opcode ∈ Fuzzer.INSTRS_WITH_OPARG_IN_NAMES then
    match randomize_variable (.str []) d with
    | some (v, d2) =>
      match asStr v with
      | some s => some (v, { g2 with names := (g2.names.get_index s).2 }, d2)
      | none => none
    | none => none
  else if randomized_opcode ∈ Fuzzer.INSTRS_WITH_OPARG_IN_VARNAMES then
    match randomize_variable (.str []) d with
    | some (v, d2) =>
      match asStr v with
      | some s => some (v, { g2 with varnames := (g2.varnames.get_index s).2 }, d2)
      | none => none
    | none => none
  else if randomized_opcode ∈ Fuzzer.INSTRS_WITH_OPARG_IN_CLOSURE then
    match randomize_variable (.str []) d with
    | some (v, d2) =>
      match asStr v with
      | some s => some (v, { g2 with freevars := (g2.freevars.get_index s).2 }, d2)
      | none => none
    | none => none
  else
    match generate_random_integer (-1) OPARG_LOWER_BOUND OPARG_UPPER_BOUND d.ints with
    | some (r, rest) => some (.int r, g2, { d with ints := rest })
    | none => none

/-- `generate_oparg_for_randomized_opcode`: delete the original opcode's
operand from its table (if table-resident), then synthesize a new operand for
the randomized opcode and insert it into that opcode's table (if
table-resident). -/
def generate_oparg_for_randomized_opcode (original_opcode randomized_opcode : String)
    (oparg : PyVal) (g : GraphState) (d : Draws) :
    Option (PyVal × GraphState × Draws) :=
  match delete_original_oparg original_opcode oparg g with
  | none => none
  | some g2 => insert_new_oparg randomized_opcode oparg g2 d

/-!
The operand-randomization path of the emission interceptor
(`Fuzzer.randomize_oparg`) with its per-unit mutation record, and the fuzz
driver.
-/

/-- The mutation record `self.oparg_randomizations`: a Python dict from the
original operand value to the replacement chosen for it, looked up with
Python equality. -/
abbrev MutationRecord := List (PyVal × PyVal)

/-- Dict lookup in the mutation record. -/
def recordLookup (memo : MutationRecord) (k : PyVal) : Option PyVal :=
  (memo.find? (fun p => pyEq p.1 k)).map (fun p => p.2)

/-- Dict assignment in the mutation record: overwrite when present, else
append. -/
def recordAssign (memo : MutationRecord) (k v : PyVal) : MutationRecord :=
  if memo.any (fun p => pyEq p.1 k) then
    memo.map (fun p => if pyEq p.1 k then (p.1, v) else p)
  else memo ++ [(k, v)]

/-- The mutable state of one `Fuzzer` code generator: its mutation record and
the graph tables of the unit being emitted. -/
structure FuzzState where
  oparg_randomizations : MutationRecord
  graph : GraphState

/-- `Fuzzer.randomize_oparg` (the non-`do_not_emit_bytecode` path): reuse the
recorded replacement for an operand seen before, otherwise randomize it and
record the result; then route by the opcode's operand-table membership,
replacing the table entry and emitting the instruction. Returns the emitted
instruction with the updated state; `none` models draw exhaustion or a
runtime error. -/
def randomize_oparg (opcode : String) (oparg : PyVal) (ioparg : Int)
    (st : FuzzState) (d : Draws) : Option (Instruction × FuzzState × Draws) :=
  let memoized : Option (PyVal × MutationRecord × Draws) :=
    match recordLookup st.oparg_randomizations oparg with
    | some r => some (r, st.oparg_randomizations, d)
    | none =>
      match randomize_variable oparg d with
      | some (r, d2) => some (r, recordAssign st.oparg_randomizations oparg r, d2)
      | none => none
  match memoized with
  | none => none
  | some (randomized_oparg, memo2, d2) =>
    if opcode ∈ Fuzzer.INSTRS_WITH_OPARG_IN_NAMES then
      match asStr oparg, asStr randomized_oparg with
      | some s, some r =>
        let res := replace_name_var s r st.graph.names
        some (⟨opcode, randomized_oparg, (res.1 : Int)⟩,
          ⟨memo2, { st.graph with names := res.2 }⟩, d2)
      | _, _ => none
    else if opcode ∈ Fuzzer.INSTRS_WITH_OPARG_IN_VARNAMES then
      match asStr oparg, asStr randomized_oparg with
      | some s, some r =>
        let res := replace_name_var s r st.graph.varnames
        some (⟨opcode, randomized_oparg, (res.1 : Int)⟩,
          ⟨memo2, { st.graph with varnames := res.2 }⟩, d2)
      | _, _ => none
    else if opcode ∈ Fuzzer.INSTRS_WITH_OPARG_IN_CONSTS ∧ opcode ≠ "LOAD_CONST" then
      match replace_const_var (get_const_key oparg) (get_const_key randomized_oparg)
          st.graph.consts with
      | some (i, consts2) =>
        some (⟨opcode, randomized_oparg, (i : Int)⟩,
          ⟨memo2, { st.graph with consts := consts2 }⟩, d2)
      | none => none
    else if opcode ∈ Fuzzer.INSTRS_WITH_OPARG_IN_CLOSURE then
      match asStr oparg, asStr randomized_oparg with
      | some s, some r =>
        match replace_closure_var s r ioparg st.graph.freevars st.graph.cellvars with
        | some (i, fv, cv) =>
          some (⟨opcode, randomized_oparg, i⟩,
            ⟨memo2, { st.graph with freevars := fv, cellvars := cv }⟩, d2)
        | none => none
      | _, _ => none
    else
      match generate_random_ioparg opcode ioparg d2.ints with
      | some (i, rest) =>
        some (⟨opcode, oparg, i⟩, ⟨memo2, st.graph⟩, { d2 with ints := rest })
      | none => none

/-- The four-way outcome classification of one fuzzing trial. -/
inductive FuzzerReturnTypes where
  | SYNTAX_ERROR
  | ERROR_CAUGHT_BY_JIT
  | VERIFICATION_ERROR
  | SUCCESS
deriving DecidableEq

/-- A compiled unit produced by the instrumented compile; its contents are
opaque to the driver. -/
structure Code where
  id : Nat
deriving DecidableEq

/-- The external collaborators of the fuzz driver, each signalling failure
through a distinguishable error value: the instrumented `compile` (raising
`SyntaxError`), `Verifier.validate_code` (raising `VerificationError`), and
the optional `cinderjit.force_compile` (raising `RuntimeError`). -/
structure CompilerEnv where
  compile : String → Except Unit Code
  validate_code : Code → Except Unit Unit
  jitPresent : Bool
  force_compile : Code → Except Unit Unit

/-- `textwrap.indent(code_str, "  ")`: prefix every line that is not purely
whitespace with two spaces. -/
def indentTwo (code_str : String) : String :=
  String.intercalate "\n"
    ((code_str.splitOn "\n").map
      (fun l => if l.trim = "" then l else "  " ++ l))

/-- The wrapping performed by `fuzzer_compile` before compiling: the input is
nested inside a synthetic function body. -/
def wrapCode (code_str : String) : String :=
  "def wrapper_function():\n" ++ indentTwo code_str

/-- `fuzzer_compile`: wrap the source text, compile it through the `Fuzzer`
code generator, verify, and (when a JIT is present) force-compile, returning
the compiled unit (or `none` on a syntax error) with the outcome
classification. -/
def fuzzer_compile (env : CompilerEnv) (code_str : String) :
    Option Code × FuzzerReturnTypes :=
  match env.compile (wrapCode code_str) with
  | .error _ => (none, .SYNTAX_ERROR)
  | .ok code =>
    match env.validate_code code with
    | .error _ => (some code, .VERIFICATION_ERROR)
    | .ok _ =>
      if env.jitPresent then
        match env.force_compile code with
        | .error _ => (some code, .ERROR_CAUGHT_BY_JIT)
        | .ok _ => (some code, .SUCCESS)
      else (some code, .SUCCESS)

/-!
Auxiliary predicates used by the verification statements.
-/

/-- Two opcode sets have no common member (boolean check, evaluated on the
concrete class sets). -/
def disjointLists (a b : List String) : Bool :=
  a.all (fun x => !b.elem x)

/-- Every two distinct sets in the list are disjoint. -/
def allDisjoint : List (List String) → Bool
  | [] => true
  | l :: ls => ls.all (fun l2 => disjointLists l l2) && allDisjoint ls

/-- Two opcodes lie in a common fixed-stack-effect class. -/
def sameStackClass (o o2 : String) : Prop :=
  (o ∈ Fuzzer.INSTRS_WITH_STACK_EFFECT_0 ∧ o2 ∈ Fuzzer.INSTRS_WITH_STACK_EFFECT_0)
  ∨ (o ∈ Fuzzer.INSTRS_WITH_STACK_EFFECT_1 ∧ o2 ∈ Fuzzer.INSTRS_WITH_STACK_EFFECT_1)
  ∨ (o ∈ Fuzzer.INSTRS_WITH_STACK_EFFECT_2 ∧ o2 ∈ Fuzzer.INSTRS_WITH_STACK_EFFECT_2)
  ∨ (o ∈ Fuzzer.INSTRS_WITH_STACK_EFFECT_NEG_1 ∧ o2 ∈ Fuzzer.INSTRS_WITH_STACK_EFFECT_NEG_1)
  ∨ (o ∈ Fuzzer.INSTRS_WITH_STACK_EFFECT_NEG_2 ∧ o2 ∈ Fuzzer.INSTRS_WITH_STACK_EFFECT_NEG_2)
  ∨ (o ∈ Fuzzer.INSTRS_WITH_STACK_EFFECT_NEG_3 ∧ o2 ∈ Fuzzer.INSTRS_WITH_STACK_EFFECT_NEG_3)

/-- An opcode is eligible for substitution: not exempt (branch,
variable-stack-effect, or the literal-constant load) and a member of one of
the six fixed-stack-effect classes. -/
def eligibleForSubstitution (o : String) : Prop :=
  o ∉ Fuzzer.INSTRS_WITH_BRANCHES
  ∧ o ∉ Fuzzer.INSTRS_WITH_OPARG_AFFECTING_STACK
  ∧ o ≠ "LOAD_CONST"
  ∧ (o ∈ Fuzzer.INSTRS_WITH_STACK_EFFECT_0
      ∨ o ∈ Fuzzer.INSTRS_WITH_STACK_EFFECT_1
      ∨ o ∈ Fuzzer.INSTRS_WITH_STACK_EFFECT_2
      ∨ o ∈ Fuzzer.INSTRS_WITH_STACK_EFFECT_NEG_1
      ∨ o ∈ Fuzzer.INSTRS_WITH_STACK_EFFECT_NEG_2
      ∨ o ∈ Fuzzer.INSTRS_WITH_STACK_EFFECT_NEG_3)

/-- A table behaves like a dict: no key occurs in more than one entry. -/
def IndexedSet.dictlike (s : IndexedSet) : Prop :=
  ∀ k : PyStr, (s.keys.filter (fun p => (p.1 = k : Bool))).length ≤ 1

/-- The constant pool behaves like a dict: no derived key matches more than
one entry. -/
def constDictlike (d : ConstDict) : Prop :=
  ∀ k : ConstKey, (d.filter (fun p => keyEq p.1 k)).length ≤ 1

/-- Two values are structurally equal except that the sign of a (possibly
nested) zero-magnitude float or complex component may differ: the relation
behind the claim that such value pairs are Python-equal yet get distinct
constant keys. -/
inductive ZSV : PyVal → PyVal → Prop where
  | int (n : Int) : ZSV (.int n) (.int n)
  | str (s : PyStr) : ZSV (.str s) (.str s)
  | opaque_obj (t : Nat) : ZSV (.opaque_obj t) (.opaque_obj t)
  | floatZero (b b2 : Bool) : ZSV (.float b 0) (.float b2 0)
  | floatSame (b : Bool) (m : Nat) : ZSV (.float b m) (.float b m)
  | cpx (br br2 bi bi2 : Bool) (mr mi : Nat) :
      (mr = 0 ∨ br = br2) → (mi = 0 ∨ bi = bi2) →
      ZSV (.complex br mr bi mi) (.complex br2 mr bi2 mi)
  | tupleNil : ZSV (.tuple []) (.tuple [])
  | tupleCons (x y : PyVal) (xs ys : List PyVal) :
      ZSV x y → ZSV (.tuple xs) (.tuple ys) →
      ZSV (.tuple (x :: xs)) (.tuple (y :: ys))
  | fsetNil : ZSV (.frozenset []) (.frozenset [])
  | fsetCons (x y : PyVal) (xs ys : List PyVal) :
      ZSV x y → ZSV (.frozenset xs) (.frozenset ys) →
      ZSV (.frozenset (x :: xs)) (.frozenset (y :: ys))

/-!
Shared helper lemmas.
-/

theorem length_filter_add_length_filter_not {α : Type} (l : List α) (p : α → Bool) :
    (l.filter p).length + (l.filter (fun x => !p x)).length = l.length := by
  induction l with
  | nil => simp
  | cons x xs ih =>
    by_cases h : p x = true <;> simp [List.filter_cons, h] <;> omega

theorem one_le_length_filter_of_any {α : Type} (l : List α) (p : α → Bool)
    (h : l.any p = true) : 1 ≤ (l.filter p).length := by
  rw [List.any_eq_true] at h
  obtain ⟨x, hx, hp⟩ := h
  have hm : x ∈ l.filter p := List.mem_filter.mpr ⟨hx, hp⟩
  have := List.length_pos.mpr (List.ne_nil_of_mem hm)
  omega

theorem IndexedSet.size_delKey (s s2 : IndexedSet) (k : PyStr)
    (hd : s.dictlike) (h : s.delKey k = some s2) : s2.size = s.size - 1 := by
  unfold IndexedSet.delKey at h
  split at h
  case isTrue hc =>
    injection h with h
    subst h
    have hadd := length_filter_add_length_filter_not s.keys (fun p => (p.1 = k : Bool))
    have h1 : 1 ≤ (s.keys.filter (fun p => (p.1 = k : Bool))).length :=
      one_le_length_filter_of_any _ _ hc
    have h2 := hd k
    simp only [IndexedSet.size]
    omega
  case isFalse => cases h

theorem constDel_length (d : ConstDict) (d2 : ConstDict) (k : ConstKey)
    (hd : constDictlike d) (h : constDel d k = some d2) :
    d2.length = d.length - 1 := by
  unfold constDel at h
  split at h
  case isTrue hc =>
    injection h with h
    subst h
    have hadd := length_filter_add_length_filter_not d (fun p => keyEq p.1 k)
    have h1 : 1 ≤ (d.filter (fun p => keyEq p.1 k)).length :=
      one_le_length_filter_of_any _ _ hc
    have h2 := hd k
    omega
  case isFalse => cases h

theorem length_le_constAssign (d : ConstDict) (k : ConstKey) (v : Nat) :
    d.length ≤ (constAssign d k v).length := by
  unfold constAssign
  split <;> simp

theorem IndexedSet.size_le_get_index (s : IndexedSet) (k : PyStr) :
    s.size ≤ (s.get_index k).2.size := by
  unfold IndexedSet.get_index
  split <;> simp [IndexedSet.size]

theorem constContains_of_lookup (d : ConstDict) (k : ConstKey) (i : Nat)
    (h : constLookup d k = some i) : constContains d k = true := by
  unfold constLookup at h
  unfold constContains
  cases hf : d.find? (fun p => keyEq p.1 k) with
  | none => rw [hf] at h; cases h
  | some p =>
    have := List.mem_of_find?_eq_some hf
    have hp := List.find?_some hf
    rw [List.any_eq_true]
    exact ⟨p, this, hp⟩

theorem IndexedSet.lookup_eq_none_of_not_contains (s : IndexedSet) (k : PyStr)
    (h : s.containsKey k = false) : s.lookup k = none := by
  unfold IndexedSet.containsKey at h
  unfold IndexedSet.lookup
  cases hf : s.keys.find? (fun p => (p.1 = k : Bool)) with
  | none => rfl
  | some p =>
    have hmem := List.mem_of_find?_eq_some hf
    have hp := List.find?_some hf
    have : s.keys.any (fun p => (p.1 = k : Bool)) = true :=
      List.any_eq_true.mpr ⟨p, hmem, hp⟩
    rw [this] at h
    cases h

/-- Membership transfer out of a checked disjointness of two opcode sets. -/
theorem not_mem_of_disjointLists {l1 l2 : List String}
    (h : disjointLists l1 l2 = true) {x : String} (hx : x ∈ l1) : x ∉ l2 := by
  unfold disjointLists at h
  rw [List.all_eq_true] at h
  have := h x hx
  intro hmem
  rw [Bool.not_eq_true'] at this
  rw [← List.elem_iff] at hmem
  rw [this] at hmem
  cases hmem

/-!
Claim theorems.
-/

/-- C3: for every input source text, `fuzzer_compile` returns a pair whose
classification is exactly one of the four outcomes, whose unit component is
`none` exactly when the classification is the syntax failure, and a compile
(syntax) error on the wrapped input - such as the malformed text
`def f(:` - yields `(none, SYNTAX_ERROR)`. -/
theorem fuzzer_compile_contract (env : CompilerEnv) (code_str : String) :
    ((fuzzer_compile env code_str).2 = .SYNTAX_ERROR
      ∨ (fuzzer_compile env code_str).2 = .ERROR_CAUGHT_BY_JIT
      ∨ (fuzzer_compile env code_str).2 = .VERIFICATION_ERROR
      ∨ (fuzzer_compile env code_str).2 = .SUCCESS)
    ∧ ((fuzzer_compile env code_str).1 = none
        ↔ (fuzzer_compile env code_str).2 = .SYNTAX_ERROR)
    ∧ (env.compile (wrapCode code_str) = .error () →
        fuzzer_compile env code_str = (none, .SYNTAX_ERROR)) := by
  unfold fuzzer_compile
  cases hc : env.compile (wrapCode code_str) with
  | error e => simp
  | ok code =>
    cases hv : env.validate_code code with
    | error e => simp [hc, hv]
    | ok u =>
      by_cases hj : env.jitPresent
      · cases hf : env.force_compile code with
        | error e2 => simp [hc, hv, hj, hf]
        | ok u2 => simp [hc, hv, hj, hf]
      · simp [hc, hv, hj]

/-- Fixed external environment for the witness: the front end rejects every
input with a syntax error. -/
def envSyntaxFail : CompilerEnv :=
  { compile := fun _ => .error ()
    validate_code := fun _ => .ok ()
    jitPresent := false
    force_compile := fun _ => .ok () }

/-- Witness for C3 at the malformed input of the claim. -/
theorem fuzzer_compile_contract_witness :
    fuzzer_compile envSyntaxFail ("def f(:") = (none, .SYNTAX_ERROR) :=
  (fuzzer_compile_contract envSyntaxFail ("def f(:")).2.2 rfl

/-- C9 (recording the divergence): on the operand-randomization path a
`COMPARE_OP` instruction can receive the encoded operand 12, which lies
outside of the comparison-operator domain 0..11 of size `CMP_OP_LENGTH`,
because `random.randint(0, CMP_OP_LENGTH)` includes its upper bound. -/
theorem compare_op_ioparg_can_exceed_domain :
    generate_random_ioparg "COMPARE_OP" 0 [12] = some (12, [])
    ∧ ¬ ((12 : Int) ≤ CMP_OP_LENGTH - 1)
    ∧ (∀ ioparg i cs rest, generate_random_ioparg "COMPARE_OP" ioparg cs = some (i, rest)
        → 0 ≤ i ∧ i ≤ CMP_OP_LENGTH) := by
  refine ⟨by decide, by decide, ?_⟩
  intro ioparg i cs rest h
  have hnm : ¬ ("COMPARE_OP" ∈ Fuzzer.INSTRS_WITH_BRANCHES
      ∨ "COMPARE_OP" ∈ Fuzzer.INSTRS_WITH_OPARG_AFFECTING_STACK
      ∨ "COMPARE_OP" ∈ Fuzzer.INSTRS_WITH_OPARG_IN_CONSTS) := by decide
  unfold generate_random_ioparg at h
  rw [if_neg hnm, if_pos rfl] at h
  induction cs with
  | nil => cases h
  | cons c cst ih =>
    rw [generate_random_integer] at h
    split at h
    · exact ih h
    · injection h with h
      have h1 : pyRandint 0 CMP_OP_LENGTH c = i := congrArg Prod.fst h
      subst h1
      simp only [pyRandint, CMP_OP_LENGTH]
      have hx : ∀ a b : Int, a.emod b = a % b := fun a b => rfl
      simp only [hx]
      omega

/-- C5 counterexample: the stack-effect classification is not a partition -
`JUMP_FORWARD` is both an exempt branch opcode and a member of the
zero-stack-effect class, and an eligible substitution (here of `NOP`) can
select it as the replacement. -/
theorem stack_classes_not_disjoint :
    ("JUMP_FORWARD" ∈ Fuzzer.INSTRS_WITH_BRANCHES
      ∧ "JUMP_FORWARD" ∈ Fuzzer.INSTRS_WITH_STACK_EFFECT_0)
    ∧ randomize_opcode "NOP" [18] = some ("JUMP_FORWARD", []) := by
  decide

/-- C5 amended: the six fixed-stack-effect classes and the
variable-stack-effect class are pairwise disjoint, but the exempt branch
class overlaps the fixed classes (`JUMP_FORWARD`, `JUMP_ABSOLUTE` with
effect 0; `RETURN_VALUE`, `POP_JUMP_IF_FALSE`, `POP_JUMP_IF_TRUE` with
effect -1; `RAISE_VARARGS` with the variable class), so an eligible
substitution can select an exempt control-transfer opcode. -/
theorem fixed_stack_classes_disjoint_but_branches_overlap :
    allDisjoint
      [Fuzzer.INSTRS_WITH_STACK_EFFECT_0, Fuzzer.INSTRS_WITH_STACK_EFFECT_1,
       Fuzzer.INSTRS_WITH_STACK_EFFECT_2, Fuzzer.INSTRS_WITH_STACK_EFFECT_NEG_1,
       Fuzzer.INSTRS_WITH_STACK_EFFECT_NEG_2, Fuzzer.INSTRS_WITH_STACK_EFFECT_NEG_3,
       Fuzzer.INSTRS_WITH_OPARG_AFFECTING_STACK] = true
    ∧ ("JUMP_FORWARD" ∈ Fuzzer.INSTRS_WITH_BRANCHES
        ∧ "JUMP_FORWARD" ∈ Fuzzer.INSTRS_WITH_STACK_EFFECT_0)
    ∧ ("JUMP_ABSOLUTE" ∈ Fuzzer.INSTRS_WITH_BRANCHES
        ∧ "JUMP_ABSOLUTE" ∈ Fuzzer.INSTRS_WITH_STACK_EFFECT_0)
    ∧ ("RETURN_VALUE" ∈ Fuzzer.INSTRS_WITH_BRANCHES
        ∧ "RETURN_VALUE" ∈ Fuzzer.INSTRS_WITH_STACK_EFFECT_NEG_1)
    ∧ ("POP_JUMP_IF_FALSE" ∈ Fuzzer.INSTRS_WITH_BRANCHES
        ∧ "POP_JUMP_IF_FALSE" ∈ Fuzzer.INSTRS_WITH_STACK_EFFECT_NEG_1)
    ∧ ("RAISE_VARARGS" ∈ Fuzzer.INSTRS_WITH_BRANCHES
        ∧ "RAISE_VARARGS" ∈ Fuzzer.INSTRS_WITH_OPARG_AFFECTING_STACK)
    ∧ (randomize_opcode "NOP" [18] = some ("JUMP_FORWARD", [])
        ∧ "JUMP_FORWARD" ∈ Fuzzer.INSTRS_WITH_BRANCHES) := by
  decide

/-- Any opcode returned by the resampling choice over an option set is a
member of that set and differs from the original opcode. -/
theorem generate_random_opcode_spec (opcode : String) (options : List String)
    (cs : List Nat) (o : String) (rest : List Nat)
    (hne : options ≠ [])
    (h : generate_random_opcode opcode options cs = some (o, rest)) :
    o ∈ options ∧ o ≠ opcode := by
  induction cs with
  | nil => cases h
  | cons c cst ih =>
    rw [generate_random_opcode] at h
    split at h
    · exact ih h
    case isFalse hne2 =>
      injection h with h
      have h1 : options.getD (c % options.length) "" = o := congrArg Prod.fst h
      subst h1
      refine ⟨?_, hne2⟩
      have hlen : 0 < options.length := List.length_pos.mpr hne
      have hlt : c % options.length < options.length := Nat.mod_lt _ hlen
      rw [List.getD_eq_getElem?_getD, List.getElem?_eq_getElem hlt]
      exact List.getElem_mem hlt

/-- C1: every opcode eligible for substitution (not a branch, not a
variable-stack-effect opcode, not `LOAD_CONST`, member of one of the six
fixed-stack-effect classes) is replaced by `randomize_opcode` with an opcode
of the same stack-effect class that differs from the original. -/
theorem substitution_preserves_stack_class (opcode o2 : String)
    (cs rest : List Nat)
    (helig : eligibleForSubstitution opcode)
    (h : randomize_opcode opcode cs = some (o2, rest)) :
    sameStackClass opcode o2 ∧ o2 ≠ opcode := by
  obtain ⟨hbr, haff, hlc, hmem⟩ := helig
  unfold randomize_opcode at h
  rw [if_neg (by simp [hbr, haff, hlc])] at h
  by_cases h0 : opcode ∈ Fuzzer.INSTRS_WITH_STACK_EFFECT_0
  · rw [if_pos h0] at h
    obtain ⟨hm, hne⟩ := generate_random_opcode_spec _ _ _ _ _ (by decide) h
    exact ⟨Or.inl ⟨h0, hm⟩, hne⟩
  · rw [if_neg h0] at h
    by_cases h1 : opcode ∈ Fuzzer.INSTRS_WITH_STACK_EFFECT_1
    · rw [if_pos h1] at h
      obtain ⟨hm, hne⟩ := generate_random_opcode_spec _ _ _ _ _ (by decide) h
      exact ⟨Or.inr (Or.inl ⟨h1, hm⟩), hne⟩
    · rw [if_neg h1] at h
      by_cases h2 : opcode ∈ Fuzzer.INSTRS_WITH_STACK_EFFECT_2
      · rw [if_pos h2] at h
        obtain ⟨hm, hne⟩ := generate_random_opcode_spec _ _ _ _ _ (by decide) h
        exact ⟨Or.inr (Or.inr (Or.inl ⟨h2, hm⟩)), hne⟩
      · rw [if_neg h2] at h
        by_cases h3 : opcode ∈ Fuzzer.INSTRS_WITH_STACK_EFFECT_NEG_1
        · rw [if_pos h3] at h
          obtain ⟨hm, hne⟩ := generate_random_opcode_spec _ _ _ _ _ (by decide) h
          exact ⟨Or.inr (Or.inr (Or.inr (Or.inl ⟨h3, hm⟩))), hne⟩
        · rw [if_neg h3] at h
          by_cases h4 : opcode ∈ Fuzzer.INSTRS_WITH_STACK_EFFECT_NEG_2
          · rw [if_pos h4] at h
            obtain ⟨hm, hne⟩ := generate_random_opcode_spec _ _ _ _ _ (by decide) h
            exact ⟨Or.inr (Or.inr (Or.inr (Or.inr (Or.inl ⟨h4, hm⟩)))), hne⟩
          · rw [if_neg h4] at h
            by_cases h5 : opcode ∈ Fuzzer.INSTRS_WITH_STACK_EFFECT_NEG_3
            · rw [if_pos h5] at h
              obtain ⟨hm, hne⟩ := generate_random_opcode_spec _ _ _ _ _ (by decide) h
              exact ⟨Or.inr (Or.inr (Or.inr (Or.inr (Or.inr ⟨h5, hm⟩)))), hne⟩
            · rcases hmem with hx | hx | hx | hx | hx | hx <;> contradiction

/-- Witness for C1: the eligible opcode `NOP` replaced by `ROT_TWO` of the
same zero-stack-effect class. -/
theorem substitution_preserves_stack_class_witness :
    sameStackClass ("NOP") ("ROT_TWO") ∧ ("ROT_TWO") ≠ ("NOP") :=
  substitution_preserves_stack_class ("NOP") ("ROT_TWO") [0] []
    ⟨by decide, by decide, by decide, Or.inl (by decide)⟩ (by decide)

/-- Helper: constant-table opcodes keep their encoded operand on the
operand-randomization path. -/
theorem generate_random_ioparg_const_member (opcode : String) (i : Int)
    (cs : List Int) (hmem : opcode ∈ Fuzzer.INSTRS_WITH_OPARG_IN_CONSTS) :
    generate_random_ioparg opcode i cs = some (i, cs) := by
  unfold generate_random_ioparg
  rw [if_pos (Or.inr (Or.inr hmem))]

/-- C10: on the operand-randomization path a `LOAD_CONST` instruction is
emitted with its original logical operand and its original encoded operand,
and every table of the compiled unit is left unchanged. -/
theorem load_const_passes_through_unmutated (oparg : PyVal) (ioparg : Int)
    (st : FuzzState) (d : Draws) (ins : Instruction) (st2 : FuzzState)
    (d2 : Draws)
    (h : randomize_oparg ("LOAD_CONST") oparg ioparg st d = some (ins, st2, d2)) :
    ins = ⟨"LOAD_CONST", oparg, ioparg⟩ ∧ st2.graph = st.graph := by
  simp only [randomize_oparg] at h
  split at h
  · cases h
  case h_2 r memo2 dx heq =>
    rw [if_neg (by decide), if_neg (by decide), if_neg (by decide),
      if_neg (by decide),
      generate_random_ioparg_const_member ("LOAD_CONST") ioparg dx.ints
        (by decide)] at h
    injection h with h
    have h1 : ins = ⟨"LOAD_CONST", oparg, ioparg⟩ := (congrArg Prod.fst h).symm
    have h2 : st2 = ⟨memo2, st.graph⟩ :=
      (congrArg (fun q => q.2.1) h).symm
    exact ⟨h1, by rw [h2]⟩

/-- Empty graph tables used by concrete instances. -/
def gEmptyTables : GraphState := ⟨[], ⟨[]⟩, ⟨[]⟩, ⟨[]⟩, ⟨[]⟩⟩

/-- Witness for C10: a concrete `LOAD_CONST` emission with operand 5 and
encoded operand 3 passes through unchanged. -/
theorem load_const_passes_through_unmutated_witness :
    (⟨"LOAD_CONST", PyVal.int 5, 3⟩ : Instruction) = ⟨"LOAD_CONST", PyVal.int 5, 3⟩
    ∧ (FuzzState.mk [(PyVal.int 5, PyVal.int 7)] gEmptyTables).graph
        = (FuzzState.mk [] gEmptyTables).graph :=
  load_const_passes_through_unmutated (PyVal.int 5) 3 ⟨[], gEmptyTables⟩ ⟨[7], []⟩
    ⟨"LOAD_CONST", PyVal.int 5, 3⟩ ⟨[(PyVal.int 5, PyVal.int 7)], gEmptyTables⟩
    ⟨[], []⟩ (by rfl)

/-- Unfolding equations for one resampling attempt. -/
theorem generate_random_integer_cons (original lower upper c : Int)
    (cs : List Int) :
    generate_random_integer original lower upper (c :: cs) =
      if pyRandint lower upper c = original then
        generate_random_integer original lower upper cs
      else some (pyRandint lower upper c, cs) := rfl

theorem generate_random_string_cons (original : PyStr) (lower upper : Nat)
    (c : PyStr) (cs : List PyStr) :
    generate_random_string original lower upper (c :: cs) =
      if clampStr lower upper c = original then
        generate_random_string original lower upper cs
      else some (clampStr lower upper c, cs) := rfl

theorem generate_random_opcode_cons (opcode : String) (options : List String)
    (c : Nat) (cs : List Nat) :
    generate_random_opcode opcode options (c :: cs) =
      if options.getD (c % options.length) "" = opcode then
        generate_random_opcode opcode options cs
      else some (options.getD (c % options.length) "", cs) := rfl

/-- C7 counterexample: on a size-1 domain whose sole value equals the
original, the resampling helpers never return a value however many draws are
made - modelling the unguarded unbounded recursion of the Python code - so
the bounded-retry guard the claim asserts does not exist. -/
theorem resamplers_never_return_on_singleton_domain :
    (∀ cs : List Int, generate_random_integer 5 5 5 cs = none)
    ∧ (∀ cs : List PyStr, generate_random_string [] 0 0 cs = none)
    ∧ (∀ cs : List Nat, generate_random_opcode ("NOP") ["NOP"] cs = none) := by
  refine ⟨?_, ?_, ?_⟩
  · intro cs
    induction cs with
    | nil => rfl
    | cons c rest ih =>
      rw [generate_random_integer_cons]
      have hc : pyRandint 5 5 c = 5 := by
        unfold pyRandint
        have hx : ∀ a b : Int, a.emod b = a % b := fun a b => rfl
        rw [hx]
        norm_num
      rw [hc, if_pos rfl]
      exact ih
  · intro cs
    induction cs with
    | nil => rfl
    | cons c rest ih =>
      rw [generate_random_string_cons]
      have hc : clampStr 0 0 c = [] := by
        simp [clampStr]
      rw [hc, if_pos rfl]
      exact ih
  · intro cs
    induction cs with
    | nil => rfl
    | cons c rest ih =>
      rw [generate_random_opcode_cons]
      have hc : (["NOP"] : List String).getD (c % ("NOP" :: []).length) "" = "NOP" := by
        simp [Nat.mod_one]
      rw [hc, if_pos rfl]
      exact ih

/-- C7 amended: each resampling helper returns, whenever it returns, a value
different from the original (integers additionally within the inclusive
bounds); and for every domain with more than one element there is a draw
sequence on which the helper terminates with such a value - termination holds
exactly on draw sequences that eventually produce a candidate different from
the original (an almost-sure event), not unconditionally, and a singleton
domain admits no such sequence. -/
theorem resamplers_return_fresh_values :
    (∀ (original lower upper : Int) (cs : List Int) (r : Int) (rest : List Int),
        lower ≤ upper →
        generate_random_integer original lower upper cs = some (r, rest) →
        r ≠ original ∧ lower ≤ r ∧ r ≤ upper)
    ∧ (∀ original lower upper : Int, lower < upper →
        ∃ (cs : List Int) (r : Int) (rest : List Int),
          generate_random_integer original lower upper cs = some (r, rest)
          ∧ r ≠ original)
    ∧ (∀ (original : PyStr) (lower upper : Nat) (cs : List PyStr) (r : PyStr)
          (rest : List PyStr),
        generate_random_string original lower upper cs = some (r, rest) →
        r ≠ original)
    ∧ (∀ (original : PyStr) (lower upper : Nat), lower < upper →
        ∃ (cs : List PyStr) (r : PyStr) (rest : List PyStr),
          generate_random_string original lower upper cs = some (r, rest)
          ∧ r ≠ original)
    ∧ (∀ (opcode : String) (options : List String) (cs : List Nat) (o : String)
          (rest : List Nat),
        options ≠ [] →
        generate_random_opcode opcode options cs = some (o, rest) →
        o ∈ options ∧ o ≠ opcode)
    ∧ (∀ (opcode : String) (options : List String),
        (∃ o ∈ options, o ≠ opcode) →
        ∃ (cs : List Nat) (o : String) (rest : List Nat),
          generate_random_opcode opcode options cs = some (o, rest)
          ∧ o ≠ opcode) := by
  refine ⟨?_, ?_, ?_, ?_, ?_, ?_⟩
  · intro original lower upper cs r rest hle h
    induction cs with
    | nil => cases h
    | cons c cst ih =>
      rw [generate_random_integer_cons] at h
      split at h
      · exact ih h
      case isFalse hne =>
        injection h with h
        have h1 : pyRandint lower upper c = r := congrArg Prod.fst h
        refine ⟨by rw [← h1]; exact hne, ?_, ?_⟩ <;>
          · rw [← h1]
            unfold pyRandint
            have hx : ∀ a b : Int, a.emod b = a % b := fun a b => rfl
            rw [hx]
            have h3 := Int.emod_nonneg (c - lower)
              (by omega : upper - lower + 1 ≠ 0)
            have h4 := Int.emod_lt_of_pos (c - lower)
              (by omega : (0 : Int) < upper - lower + 1)
            omega
  · intro original lower upper hlt
    have hcl : pyRandint lower upper lower = lower := by
      unfold pyRandint
      have hx : ∀ a b : Int, a.emod b = a % b := fun a b => rfl
      rw [hx]
      simp
    have hcu : pyRandint lower upper upper = upper := by
      unfold pyRandint
      have hx : ∀ a b : Int, a.emod b = a % b := fun a b => rfl
      rw [hx]
      rw [Int.emod_eq_of_lt (by omega) (by omega)]
      omega
    by_cases ho : lower = original
    · refine ⟨[lower, upper], upper, [], ?_, by omega⟩
      rw [generate_random_integer_cons, hcl, if_pos ho,
        generate_random_integer_cons, hcu,
        if_neg (by omega : ¬ upper = original)]
    · refine ⟨[lower], lower, [], ?_, ho⟩
      rw [generate_random_integer_cons, hcl, if_neg ho]
  · intro original lower upper cs r rest h
    induction cs with
    | nil => cases h
    | cons c cst ih =>
      rw [generate_random_string_cons] at h
      split at h
      · exact ih h
      case isFalse hne =>
        injection h with h
        have h1 : clampStr lower upper c = r := congrArg Prod.fst h
        rw [← h1]
        exact hne
  · intro original lower upper hlt
    have hc1 : clampStr lower upper (List.replicate lower 'a')
        = List.replicate lower 'a' := by
      unfold clampStr
      rw [List.take_of_length_le (by simp; omega)]
      simp
    have hc2 : clampStr lower upper (List.replicate (lower + 1) 'a')
        = List.replicate (lower + 1) 'a' := by
      unfold clampStr
      rw [List.take_of_length_le (by simp; omega)]
      simp
    have hne12 : (List.replicate lower 'a' : PyStr)
        ≠ List.replicate (lower + 1) 'a' := by
      intro hcontra
      have := congrArg List.length hcontra
      simp at this
    by_cases ho : List.replicate lower 'a' = original
    · refine ⟨[List.replicate (lower + 1) 'a'], List.replicate (lower + 1) 'a',
        [], ?_, by rw [← ho]; exact fun hcontra => hne12 hcontra.symm⟩
      rw [generate_random_string_cons, hc2,
        if_neg (by rw [← ho]; exact fun hcontra => hne12 hcontra.symm)]
    · refine ⟨[List.replicate lower 'a'], List.replicate lower 'a', [], ?_, ho⟩
      rw [generate_random_string_cons, hc1, if_neg ho]
  · intro opcode options cs o rest hne h
    exact generate_random_opcode_spec opcode options cs o rest hne h
  · intro opcode options hex
    obtain ⟨o, ho, hone⟩ := hex
    have hlt : options.indexOf o < options.length :=
      List.indexOf_lt_length.mpr ho
    have hmod : options.indexOf o % options.length = options.indexOf o :=
      Nat.mod_eq_of_lt hlt
    have hg : options.getD (options.indexOf o % options.length) "" = o := by
      rw [hmod, List.getD_eq_getElem?_getD, List.getElem?_eq_getElem hlt]
      simp [List.getElem_indexOf]
    refine ⟨[options.indexOf o], o, [], ?_, hone⟩
    rw [generate_random_opcode_cons, hg, if_neg hone]

/-- Witness for C7 amended: the integer domain 0..5 with original value 0
admits a terminating draw sequence with a fresh result. -/
theorem resamplers_return_fresh_values_witness :
    ∃ (cs : List Int) (r : Int) (rest : List Int),
      generate_random_integer 0 0 5 cs = some (r, rest) ∧ r ≠ 0 :=
  resamplers_return_fresh_values.2.1 0 0 5 (by decide)

/-- C6 counterexample: replacing the name `a` (index 0) of a two-entry table
by `c` is not an in-place replacement - the new key is appended with index 1,
leaving index 0 vacant and index 1 duplicated. -/
theorem replace_name_var_not_in_place :
    (IndexedSet.mk [(['a'], 0), (['b'], 1)]).lookup ['a'] = some 0
    ∧ replace_name_var ['a'] ['c'] ⟨[(['a'], 0), (['b'], 1)]⟩
        = (1, ⟨[(['b'], 1), (['c'], 1)]⟩)
    ∧ (replace_name_var ['a'] ['c'] ⟨[(['a'], 0), (['b'], 1)]⟩).2.keys.map
        Prod.snd = [1, 1]
    ∧ (1 : Nat) ≠ 0 := by
  decide

/-- C6 amended: the constant-pool operand replacement is in place (the new
key receives exactly the deleted key's index, other entries untouched), but
the name/local/captured-slot replacement deletes the old key and then appends
the new key with index equal to the table's current entry count, so the
vacated index is reused only when the deleted key held the highest index;
the substitution path's constant insertion likewise appends at the current
size. -/
theorem const_replace_in_place_name_replace_appends :
    (∀ (c : ConstDict) (old_key new_key : ConstKey) (i : Nat),
        constLookup c old_key = some i →
        constContains (c.filter (fun p => !keyEq p.1 old_key)) new_key = false →
        replace_const_var old_key new_key c =
          some (i, c.filter (fun p => !keyEq p.1 old_key) ++ [(new_key, i)]))
    ∧ (∀ (name rnd : PyStr) (loc : IndexedSet),
        loc.containsKey name = true →
        (IndexedSet.mk (loc.keys.filter (fun p => !(p.1 = name : Bool)))).containsKey
            rnd = false →
        replace_name_var name rnd loc =
          ((loc.keys.filter (fun p => !(p.1 = name : Bool))).length,
            ⟨loc.keys.filter (fun p => !(p.1 = name : Bool))
              ++ [(rnd, (loc.keys.filter (fun p => !(p.1 = name : Bool))).length)]⟩)) := by
  constructor
  · intro c old_key new_key i hl hnc
    unfold replace_const_var
    rw [hl]
    unfold constDel
    rw [if_pos (constContains_of_lookup c old_key i hl)]
    simp [constAssign, hnc]
  · intro name rnd loc hc hnc
    unfold replace_name_var
    rw [if_pos hc]
    unfold IndexedSet.get_index
    rw [IndexedSet.lookup_eq_none_of_not_contains _ _ hnc]

/-- Witness for C6 amended at concrete tables: the constant replacement keeps
index 0 for the fresh key; the name replacement of `a` appends `c` at index
1. -/
theorem const_replace_in_place_name_replace_appends_witness :
    replace_const_var (ConstKey.base .int (.int 1)) (ConstKey.base .int (.int 2))
        [(ConstKey.base .int (.int 1), 0), (ConstKey.base .str (.str ['s']), 1)]
      = some (0, [(ConstKey.base .str (.str ['s']), 1),
                  (ConstKey.base .int (.int 2), 0)])
    ∧ replace_name_var ['a'] ['c'] ⟨[(['a'], 0), (['b'], 1)]⟩
        = (1, ⟨[(['b'], 1), (['c'], 1)]⟩) := by
  constructor
  · have h := const_replace_in_place_name_replace_appends.1
      [(ConstKey.base .int (.int 1), 0), (ConstKey.base .str (.str ['s']), 1)]
      (ConstKey.base .int (.int 1)) (ConstKey.base .int (.int 2)) 0
      (by simp [constLookup, List.find?, keyEq, pyEq])
      (by simp [constContains, List.filter, keyEq, pyEq])
    rw [h]
    simp [List.filter, keyEq, pyEq]
  · have h := const_replace_in_place_name_replace_appends.2
      ['a'] ['c'] ⟨[(['a'], 0), (['b'], 1)]⟩ (by rfl) (by rfl)
    rw [h]
    decide

/-- Concrete fuzzer state for C4: the mutation record already maps operand
`x` to the replacement `A`, and the names table holds `x`. -/
def c4St : FuzzState :=
  ⟨[(.str ['x'], .str ['A'])], ⟨[], ⟨[(['x'], 0)]⟩, ⟨[]⟩, ⟨[]⟩, ⟨[]⟩⟩⟩

/-- Concrete graph for the second (substitution-path) encounter of operand
`x` in C4. -/
def c4G2 : GraphState := ⟨[], ⟨[(['x'], 0), (['w'], 1)]⟩, ⟨[]⟩, ⟨[]⟩, ⟨[]⟩⟩

/-- C4 counterexample: the operand `x`, already recorded as renamed to `A`,
is emitted as `A` by the operand-randomization path, but the
opcode-substitution path encountering the same operand `x` synthesizes the
unrelated fresh value `B` without consulting the mutation record - the two
mutation paths do not agree on the replacement of one original operand. -/
theorem substitution_path_ignores_mutation_record :
    randomize_oparg ("LOAD_NAME") (.str ['x']) 0 c4St ⟨[], []⟩ =
      some (⟨"LOAD_NAME", .str ['A'], 0⟩,
        ⟨[(.str ['x'], .str ['A'])], ⟨[], ⟨[(['A'], 0)]⟩, ⟨[]⟩, ⟨[]⟩, ⟨[]⟩⟩⟩,
        ⟨[], []⟩)
    ∧ generate_oparg_for_randomized_opcode ("LOAD_NAME") ("LOAD_FAST")
        (.str ['x']) c4G2 ⟨[], [['B']]⟩ =
      some (.str ['B'], ⟨[], ⟨[(['w'], 1)]⟩, ⟨[(['B'], 0)]⟩, ⟨[]⟩, ⟨[]⟩⟩, ⟨[], []⟩)
    ∧ PyVal.str ['B'] ≠ PyVal.str ['A'] := by
  refine ⟨?_, by rfl, by simp⟩
  simp [randomize_oparg, recordLookup, List.find?, pyEq, c4St,
    (show ("LOAD_NAME" : String) ∈ Fuzzer.INSTRS_WITH_OPARG_IN_NAMES by decide),
    asStr, replace_name_var, IndexedSet.containsKey, IndexedSet.get_index,
    IndexedSet.lookup, List.filter, List.any]

/-- C4 amended: the consistent-renaming guarantee holds on the
operand-randomization path - when the original operand is already in the
mutation record, `randomize_oparg` reuses the recorded replacement (emitting
it as the operand for every table-resident opcode) and leaves the record
unchanged; the opcode-substitution path does not consult the record. -/
theorem randomize_oparg_uses_mutation_record (opcode : String) (oparg : PyVal)
    (ioparg : Int) (st : FuzzState) (d : Draws) (r : PyVal)
    (ins : Instruction) (st2 : FuzzState) (d2 : Draws)
    (hr : recordLookup st.oparg_randomizations oparg = some r)
    (h : randomize_oparg opcode oparg ioparg st d = some (ins, st2, d2)) :
    st2.oparg_randomizations = st.oparg_randomizations
    ∧ (ins.oparg = r ∨ ins.oparg = oparg)
    ∧ ((opcode ∈ Fuzzer.INSTRS_WITH_OPARG_IN_NAMES
        ∨ opcode ∈ Fuzzer.INSTRS_WITH_OPARG_IN_VARNAMES
        ∨ (opcode ∈ Fuzzer.INSTRS_WITH_OPARG_IN_CONSTS ∧ opcode ≠ "LOAD_CONST")
        ∨ opcode ∈ Fuzzer.INSTRS_WITH_OPARG_IN_CLOSURE) → ins.oparg = r) := by
  simp only [randomize_oparg, hr] at h
  by_cases h1 : opcode ∈ Fuzzer.INSTRS_WITH_OPARG_IN_NAMES
  · rw [if_pos h1] at h
    split at h
    next s rs hs hrs =>
      injection h with h
      have hins : ins = ⟨opcode, r, ((replace_name_var s rs st.graph.names).1 : Int)⟩ :=
        (congrArg Prod.fst h).symm
      have hst : st2 = ⟨st.oparg_randomizations, _⟩ := (congrArg (fun q => q.2.1) h).symm
      exact ⟨by rw [hst], Or.inl (by rw [hins]), fun _ => by rw [hins]⟩
    next => cases h
  · rw [if_neg h1] at h
    by_cases h2 : opcode ∈ Fuzzer.INSTRS_WITH_OPARG_IN_VARNAMES
    · rw [if_pos h2] at h
      split at h
      next s rs hs hrs =>
        injection h with h
        have hins : ins = ⟨opcode, r, ((replace_name_var s rs st.graph.varnames).1 : Int)⟩ :=
          (congrArg Prod.fst h).symm
        have hst : st2 = ⟨st.oparg_randomizations, _⟩ := (congrArg (fun q => q.2.1) h).symm
        exact ⟨by rw [hst], Or.inl (by rw [hins]), fun _ => by rw [hins]⟩
      next => cases h
    · rw [if_neg h2] at h
      by_cases h3 : opcode ∈ Fuzzer.INSTRS_WITH_OPARG_IN_CONSTS ∧ opcode ≠ "LOAD_CONST"
      · rw [if_pos h3] at h
        split at h
        next i consts2 hc =>
          injection h with h
          have hins : ins = ⟨opcode, r, (i : Int)⟩ := (congrArg Prod.fst h).symm
          have hst : st2 = ⟨st.oparg_randomizations, _⟩ := (congrArg (fun q => q.2.1) h).symm
          exact ⟨by rw [hst], Or.inl (by rw [hins]), fun _ => by rw [hins]⟩
        next => cases h
      · rw [if_neg h3] at h
        by_cases h4 : opcode ∈ Fuzzer.INSTRS_WITH_OPARG_IN_CLOSURE
        · rw [if_pos h4] at h
          split at h
          next s rs hs hrs =>
            split at h
            next i fv cv hrc =>
              injection h with h
              have hins : ins = ⟨opcode, r, i⟩ := (congrArg Prod.fst h).symm
              have hst : st2 = ⟨st.oparg_randomizations, _⟩ :=
                (congrArg (fun q => q.2.1) h).symm
              exact ⟨by rw [hst], Or.inl (by rw [hins]), fun _ => by rw [hins]⟩
            next => cases h
          next => cases h
        · rw [if_neg h4] at h
          split at h
          next i rest hg =>
            injection h with h
            have hins : ins = ⟨opcode, oparg, i⟩ := (congrArg Prod.fst h).symm
            have hst : st2 = ⟨st.oparg_randomizations, _⟩ :=
              (congrArg (fun q => q.2.1) h).symm
            refine ⟨by rw [hst], Or.inr (by rw [hins]), ?_⟩
            intro hmem
            rcases hmem with hx | hx | hx | hx <;> exact absurd hx (by assumption)
          next => cases h

/-- Witness for C4 amended: the recorded replacement `A` for operand `x` is
reused on the operand-randomization path and the record is unchanged. -/
theorem randomize_oparg_uses_mutation_record_witness :
    (FuzzState.mk [(PyVal.str ['x'], PyVal.str ['A'])]
        ⟨[], ⟨[(['A'], 0)]⟩, ⟨[]⟩, ⟨[]⟩, ⟨[]⟩⟩).oparg_randomizations
      = c4St.oparg_randomizations
    ∧ ((⟨"LOAD_NAME", .str ['A'], 0⟩ : Instruction).oparg = PyVal.str ['A']
        ∨ (⟨"LOAD_NAME", .str ['A'], 0⟩ : Instruction).oparg = PyVal.str ['x'])
    ∧ ((("LOAD_NAME" : String) ∈ Fuzzer.INSTRS_WITH_OPARG_IN_NAMES
        ∨ ("LOAD_NAME" : String) ∈ Fuzzer.INSTRS_WITH_OPARG_IN_VARNAMES
        ∨ (("LOAD_NAME" : String) ∈ Fuzzer.INSTRS_WITH_OPARG_IN_CONSTS
            ∧ ("LOAD_NAME" : String) ≠ "LOAD_CONST")
        ∨ ("LOAD_NAME" : String) ∈ Fuzzer.INSTRS_WITH_OPARG_IN_CLOSURE)
        → (⟨"LOAD_NAME", .str ['A'], 0⟩ : Instruction).oparg = PyVal.str ['A']) :=
  randomize_oparg_uses_mutation_record ("LOAD_NAME") (.str ['x']) 0 c4St
    ⟨[], []⟩ (.str ['A']) ⟨"LOAD_NAME", .str ['A'], 0⟩
    ⟨[(.str ['x'], .str ['A'])], ⟨[], ⟨[(['A'], 0)]⟩, ⟨[]⟩, ⟨[]⟩, ⟨[]⟩⟩⟩ ⟨[], []⟩
    (by simp [recordLookup, List.find?, pyEq, c4St])
    (by simp [randomize_oparg, recordLookup, List.find?, pyEq, c4St,
      (show ("LOAD_NAME" : String) ∈ Fuzzer.INSTRS_WITH_OPARG_IN_NAMES by decide),
      asStr, replace_name_var, IndexedSet.containsKey, IndexedSet.get_index,
      IndexedSet.lookup, List.filter, List.any])

/-- The deletion phase of an opcode substitution removes at most one entry,
from exactly one table: every table keeps at least its previous entry count
minus one (the captured tables measured together). -/
theorem delete_original_oparg_sizes (orig : String) (oparg : PyVal)
    (g g1 : GraphState)
    (hdc : constDictlike g.consts) (hdn : g.names.dictlike)
    (hdv : g.varnames.dictlike) (hdf : g.freevars.dictlike)
    (hdcell : g.cellvars.dictlike)
    (h : delete_original_oparg orig oparg g = some g1) :
    g.consts.length - 1 ≤ g1.consts.length
    ∧ g.names.size - 1 ≤ g1.names.size
    ∧ g.varnames.size - 1 ≤ g1.varnames.size
    ∧ closureSize g - 1 ≤ closureSize g1
    ∧ g1.consts.length ≤ g.consts.length
    ∧ g1.names.size ≤ g.names.size
    ∧ g1.varnames.size ≤ g.varnames.size
    ∧ closureSize g1 ≤ closureSize g := by
  unfold delete_original_oparg at h
  by_cases hc1 : orig ∈ Fuzzer.INSTRS_WITH_OPARG_IN_CONSTS
  · rw [if_pos hc1] at h
    split at h
    next c hdel =>
      injection h with h
      subst h
      have := constDel_length g.consts c (get_const_key oparg) hdc hdel
      simp only [closureSize]
      omega
    next => cases h
  · rw [if_neg hc1] at h
    by_cases hc2 : orig ∈ Fuzzer.INSTRS_WITH_OPARG_IN_NAMES
    · rw [if_pos hc2] at h
      split at h
      next s hstr =>
        split at h
        next ns hdel =>
          injection h with h
          subst h
          have := IndexedSet.size_delKey g.names ns s hdn hdel
          simp only [closureSize]
          omega
        next => cases h
      next => cases h
    · rw [if_neg hc2] at h
      by_cases hc3 : orig ∈ Fuzzer.INSTRS_WITH_OPARG_IN_VARNAMES
      · rw [if_pos hc3] at h
        split at h
        next s hstr =>
          split at h
          next vs hdel =>
            injection h with h
            subst h
            have := IndexedSet.size_delKey g.varnames vs s hdv hdel
            simp only [closureSize]
            omega
          next => cases h
        next => cases h
      · rw [if_neg hc3] at h
        by_cases hc4 : orig ∈ Fuzzer.INSTRS_WITH_OPARG_IN_CLOSURE
        · rw [if_pos hc4] at h
          split at h
          next s hstr =>
            split at h
            · split at h
              next fv hdel =>
                injection h with h
                subst h
                have := IndexedSet.size_delKey g.freevars fv s hdf hdel
                simp only [closureSize]
                omega
              next => cases h
            · split at h
              next cv hdel =>
                injection h with h
                subst h
                have := IndexedSet.size_delKey g.cellvars cv s hdcell hdel
                simp only [closureSize]
                omega
              next => cases h
          next => cases h
        · rw [if_neg hc4] at h
          injection h with h
          subst h
          simp only [closureSize]
          omega

/-- The insertion phase of an opcode substitution only grows tables: every
table keeps at least its previous entry count. -/
theorem insert_new_oparg_sizes (rand : String) (oparg : PyVal)
    (g1 g2 : GraphState) (d d2 : Draws) (v : PyVal)
    (h : insert_new_oparg rand oparg g1 d = some (v, g2, d2)) :
    g1.consts.length ≤ g2.consts.length
    ∧ g1.names.size ≤ g2.names.size
    ∧ g1.varnames.size ≤ g2.varnames.size
    ∧ closureSize g1 ≤ closureSize g2 := by
  unfold insert_new_oparg at h
  by_cases hc1 : rand ∈ Fuzzer.INSTRS_WITH_OPARG_IN_CONSTS
  · rw [if_pos hc1] at h
    split at h
    next new_oparg dx hrv =>
      injection h with h
      have hg : g2 = { g1 with
          consts := constAssign g1.consts (get_const_key new_oparg) g1.consts.length } :=
        (congrArg (fun q => q.2.1) h).symm
      subst hg
      have := length_le_constAssign g1.consts (get_const_key new_oparg) g1.consts.length
      simp only [closureSize]
      omega
    next => cases h
  · rw [if_neg hc1] at h
    by_cases hc2 : rand ∈ Fuzzer.INSTRS_WITH_OPARG_IN_NAMES
    · rw [if_pos hc2] at h
      split at h
      next vv dx hrv =>
        split at h
        next s hstr =>
          injection h with h
          have hg : g2 = { g1 with names := (g1.names.get_index s).2 } :=
            (congrArg (fun q => q.2.1) h).symm
          subst hg
          have := IndexedSet.size_le_get_index g1.names s
          simp only [closureSize]
          omega
        next => cases h
      next => cases h
    · rw [if_neg hc2] at h
      by_cases hc3 : rand ∈ Fuzzer.INSTRS_WITH_OPARG_IN_VARNAMES
      · rw [if_pos hc3] at h
        split at h
        next vv dx hrv =>
          split at h
          next s hstr =>
            injection h with h
            have hg : g2 = { g1 with varnames := (g1.varnames.get_index s).2 } :=
              (congrArg (fun q => q.2.1) h).symm
            subst hg
            have := IndexedSet.size_le_get_index g1.varnames s
            simp only [closureSize]
            omega
          next => cases h
        next => cases h
      · rw [if_neg hc3] at h
        by_cases hc4 : rand ∈ Fuzzer.INSTRS_WITH_OPARG_IN_CLOSURE
        · rw [if_pos hc4] at h
          split at h
          next vv dx hrv =>
            split at h
            next s hstr =>
              injection h with h
              have hg : g2 = { g1 with freevars := (g1.freevars.get_index s).2 } :=
                (congrArg (fun q => q.2.1) h).symm
              subst hg
              have := IndexedSet.size_le_get_index g1.freevars s
              simp only [closureSize]
              omega
            next => cases h
          next => cases h
        · rw [if_neg hc4] at h
          split at h
          next r rest hrg =>
            injection h with h
            have hg : g2 = g1 := (congrArg (fun q => q.2.1) h).symm
            subst hg
            simp only [closureSize]
            omega
          next => cases h

/-- The four operand-table classes are pairwise disjoint. -/
theorem operand_table_sets_disjoint :
    disjointLists Fuzzer.INSTRS_WITH_OPARG_IN_NAMES
        Fuzzer.INSTRS_WITH_OPARG_IN_CONSTS = true
    ∧ disjointLists Fuzzer.INSTRS_WITH_OPARG_IN_VARNAMES
        Fuzzer.INSTRS_WITH_OPARG_IN_CONSTS = true
    ∧ disjointLists Fuzzer.INSTRS_WITH_OPARG_IN_VARNAMES
        Fuzzer.INSTRS_WITH_OPARG_IN_NAMES = true
    ∧ disjointLists Fuzzer.INSTRS_WITH_OPARG_IN_CLOSURE
        Fuzzer.INSTRS_WITH_OPARG_IN_CONSTS = true
    ∧ disjointLists Fuzzer.INSTRS_WITH_OPARG_IN_CLOSURE
        Fuzzer.INSTRS_WITH_OPARG_IN_NAMES = true
    ∧ disjointLists Fuzzer.INSTRS_WITH_OPARG_IN_CLOSURE
        Fuzzer.INSTRS_WITH_OPARG_IN_VARNAMES = true := by
  decide

/-- Concrete tables for the C2 counterexample: one name, one free variable,
one cell variable. -/
def c2G0 : GraphState := ⟨[], ⟨[(['n'], 0)]⟩, ⟨[]⟩, ⟨[(['x'], 0)]⟩, ⟨[(['y'], 0)]⟩⟩

/-- C2 counterexample: substituting `LOAD_DEREF` (whose operand `x` is the
sole free variable) by `LOAD_NAME` passes the feasibility guard - which only
counts the combined closure table - yet deletes the only free-variable entry
and inserts the fresh operand into the names table, leaving the
free-variable table, which the substitution touched, with zero entries. -/
theorem closure_substitution_empties_freevars :
    can_replace_oparg ("LOAD_DEREF") c2G0 = true
    ∧ generate_oparg_for_randomized_opcode ("LOAD_DEREF") ("LOAD_NAME")
        (.str ['x']) c2G0 ⟨[], [['z']]⟩ =
      some (.str ['z'],
        ⟨[], ⟨[(['n'], 0), (['z'], 1)]⟩, ⟨[]⟩, ⟨[]⟩, ⟨[(['y'], 0)]⟩⟩, ⟨[], []⟩)
    ∧ (GraphState.mk [] ⟨[(['n'], 0), (['z'], 1)]⟩ ⟨[]⟩ ⟨[]⟩
        ⟨[(['y'], 0)]⟩).freevars.size = 0 := by
  exact ⟨by rfl, by rfl, by rfl⟩

/-- C2 amended: the feasibility guard does guarantee that the table the
deletion phase removed from keeps at least one entry for the names, local
and constant classes; for the closure class it guarantees only that the
combined free-plus-cell entry count stays at least one - an individual
captured table can be emptied. -/
theorem guard_keeps_deleted_table_nonempty (orig rand : String)
    (oparg v : PyVal) (g g2 : GraphState) (d d2 : Draws)
    (hdc : constDictlike g.consts) (hdn : g.names.dictlike)
    (hdv : g.varnames.dictlike) (hdf : g.freevars.dictlike)
    (hdcell : g.cellvars.dictlike)
    (hguard : can_replace_oparg orig g = true)
    (h : generate_oparg_for_randomized_opcode orig rand oparg g d
      = some (v, g2, d2)) :
    (orig ∈ Fuzzer.INSTRS_WITH_OPARG_IN_CONSTS → 1 ≤ g2.consts.length)
    ∧ (orig ∈ Fuzzer.INSTRS_WITH_OPARG_IN_NAMES → 1 ≤ g2.names.size)
    ∧ (orig ∈ Fuzzer.INSTRS_WITH_OPARG_IN_VARNAMES → 1 ≤ g2.varnames.size)
    ∧ (orig ∈ Fuzzer.INSTRS_WITH_OPARG_IN_CLOSURE → 1 ≤ closureSize g2) := by
  unfold generate_oparg_for_randomized_opcode at h
  split at h
  next => cases h
  next g1 hdel =>
    obtain ⟨d1, d2a, d3, d4, _, _, _, _⟩ :=
      delete_original_oparg_sizes orig oparg g g1 hdc hdn hdv hdf hdcell hdel
    obtain ⟨i1, i2, i3, i4⟩ := insert_new_oparg_sizes rand oparg g1 g2 d d2 v h
    unfold can_replace_oparg at hguard
    refine ⟨?_, ?_, ?_, ?_⟩
    · intro hmem
      rw [if_pos hmem] at hguard
      have := of_decide_eq_true hguard
      omega
    · intro hmem
      have hnc : orig ∉ Fuzzer.INSTRS_WITH_OPARG_IN_CONSTS :=
        not_mem_of_disjointLists operand_table_sets_disjoint.1 hmem
      rw [if_neg hnc, if_pos hmem] at hguard
      have := of_decide_eq_true hguard
      omega
    · intro hmem
      have hnc : orig ∉ Fuzzer.INSTRS_WITH_OPARG_IN_CONSTS :=
        not_mem_of_disjointLists operand_table_sets_disjoint.2.1 hmem
      have hnn : orig ∉ Fuzzer.INSTRS_WITH_OPARG_IN_NAMES :=
        not_mem_of_disjointLists operand_table_sets_disjoint.2.2.1 hmem
      rw [if_neg hnc, if_neg hnn, if_pos hmem] at hguard
      have := of_decide_eq_true hguard
      omega
    · intro hmem
      have hnc : orig ∉ Fuzzer.INSTRS_WITH_OPARG_IN_CONSTS :=
        not_mem_of_disjointLists operand_table_sets_disjoint.2.2.2.1 hmem
      have hnn : orig ∉ Fuzzer.INSTRS_WITH_OPARG_IN_NAMES :=
        not_mem_of_disjointLists operand_table_sets_disjoint.2.2.2.2.1 hmem
      have hnv : orig ∉ Fuzzer.INSTRS_WITH_OPARG_IN_VARNAMES :=
        not_mem_of_disjointLists operand_table_sets_disjoint.2.2.2.2.2 hmem
      rw [if_neg hnc, if_neg hnn, if_neg hnv, if_pos hmem] at hguard
      have := of_decide_eq_true hguard
      omega

/-- The empty table is dict-like. -/
theorem dictlike_nil : IndexedSet.dictlike ⟨[]⟩ := fun k => by simp

/-- The empty constant pool is dict-like. -/
theorem constDictlike_nil : constDictlike [] := fun k => by simp

/-- A two-entry table with distinct keys is dict-like. -/
theorem dictlike_pair (a b : PyStr) (i j : Nat) (hab : a ≠ b) :
    IndexedSet.dictlike ⟨[(a, i), (b, j)]⟩ := by
  intro k
  by_cases ha : a = k <;> by_cases hb : b = k
  · exact absurd (ha.trans hb.symm) hab
  all_goals simp [List.filter_cons, ha, hb]

/-- Concrete tables for the C2 witness: two names, nothing else. -/
def c2G1 : GraphState := ⟨[], ⟨[(['x'], 0), (['w'], 1)]⟩, ⟨[]⟩, ⟨[]⟩, ⟨[]⟩⟩

/-- Witness for C2 amended: substituting a `LOAD_NAME` whose names table
holds two entries leaves the names table non-empty. -/
theorem guard_keeps_deleted_table_nonempty_witness :
    (("LOAD_NAME" : String) ∈ Fuzzer.INSTRS_WITH_OPARG_IN_CONSTS →
      1 ≤ (GraphState.mk [] ⟨[(['w'], 1)]⟩ ⟨[(['B'], 0)]⟩ ⟨[]⟩ ⟨[]⟩).consts.length)
    ∧ (("LOAD_NAME" : String) ∈ Fuzzer.INSTRS_WITH_OPARG_IN_NAMES →
      1 ≤ (GraphState.mk [] ⟨[(['w'], 1)]⟩ ⟨[(['B'], 0)]⟩ ⟨[]⟩ ⟨[]⟩).names.size)
    ∧ (("LOAD_NAME" : String) ∈ Fuzzer.INSTRS_WITH_OPARG_IN_VARNAMES →
      1 ≤ (GraphState.mk [] ⟨[(['w'], 1)]⟩ ⟨[(['B'], 0)]⟩ ⟨[]⟩ ⟨[]⟩).varnames.size)
    ∧ (("LOAD_NAME" : String) ∈ Fuzzer.INSTRS_WITH_OPARG_IN_CLOSURE →
      1 ≤ closureSize (GraphState.mk [] ⟨[(['w'], 1)]⟩ ⟨[(['B'], 0)]⟩ ⟨[]⟩ ⟨[]⟩)) :=
  guard_keeps_deleted_table_nonempty ("LOAD_NAME") ("LOAD_FAST")
    (.str ['x']) (.str ['B']) c2G1
    ⟨[], ⟨[(['w'], 1)]⟩, ⟨[(['B'], 0)]⟩, ⟨[]⟩, ⟨[]⟩⟩ ⟨[], [['B']]⟩ ⟨[], []⟩
    constDictlike_nil (dictlike_pair ['x'] ['w'] 0 1 (by decide))
    dictlike_nil dictlike_nil dictlike_nil (by rfl) (by rfl)

/-- Growing the candidate set preserves the subset direction of frozenset
equality. -/
theorem pyEqSubset_cons_right (xs ys : List PyVal) (y : PyVal)
    (h : pyEqSubset xs ys = true) : pyEqSubset xs (y :: ys) = true := by
  induction xs with
  | nil => simp [pyEqSubset]
  | cons x xs ih =>
    simp only [pyEqSubset, Bool.and_eq_true] at h ⊢
    exact ⟨by simp [pyEqMem, h.1], ih h.2⟩

/-- Growing the witness set preserves the superset direction of frozenset
equality. -/
theorem pyEqSupset_cons_left (xs ys : List PyVal) (x : PyVal)
    (h : pyEqSupset xs ys = true) : pyEqSupset (x :: xs) ys = true := by
  induction ys with
  | nil => simp [pyEqSupset]
  | cons y ys ih =>
    simp only [pyEqSupset, Bool.and_eq_true] at h ⊢
    exact ⟨by simp [pyEqMemL, h.1], ih h.2⟩

/-- Values differing only in the sign of nested zeros are Python-equal. -/
theorem zsv_pyEq {v w : PyVal} (h : ZSV v w) : pyEq v w = true := by
  induction h with
  | int n => simp [pyEq]
  | str s => simp [pyEq]
  | opaque_obj t => simp [pyEq]
  | floatZero b b2 => cases b <;> cases b2 <;> simp [pyEq, floatVal]
  | floatSame b m => simp [pyEq]
  | cpx br br2 bi bi2 mr mi hre him =>
    have e1 : floatVal br mr = floatVal br2 mr := by
      rcases hre with h0 | h0
      · subst h0; cases br <;> cases br2 <;> simp [floatVal]
      · rw [h0]
    have e2 : floatVal bi mi = floatVal bi2 mi := by
      rcases him with h0 | h0
      · subst h0; cases bi <;> cases bi2 <;> simp [floatVal]
      · rw [h0]
    simp [pyEq, e1, e2]
  | tupleNil => simp [pyEq, pyEqList]
  | tupleCons x y xs ys hxy hxs ih1 ih2 =>
    have ihl : pyEqList xs ys = true := by simpa [pyEq] using ih2
    simp [pyEq, pyEqList, ih1, ihl]
  | fsetNil => simp [pyEq, pyEqSubset, pyEqSupset]
  | fsetCons x y xs ys hxy hxs ih1 ih2 =>
    have hsub : pyEqSubset xs ys = true ∧ pyEqSupset xs ys = true := by
      simpa [pyEq, Bool.and_eq_true] using ih2
    simp only [pyEq, Bool.and_eq_true]
    refine ⟨?_, ?_⟩
    · simp only [pyEqSubset, Bool.and_eq_true]
      exact ⟨by simp [pyEqMem, ih1], pyEqSubset_cons_right xs ys y hsub.1⟩
    · simp only [pyEqSupset, Bool.and_eq_true]
      exact ⟨by simp [pyEqMemL, ih1], pyEqSupset_cons_left xs ys x hsub.2⟩

/-- Values differing only in the sign of a nested zero receive distinct
derived constant keys. -/
theorem zsv_key {v w : PyVal} (h : ZSV v w) :
    v ≠ w → keyEq (get_const_key v) (get_const_key w) = false := by
  induction h with
  | int n => exact fun hne => absurd rfl hne
  | str s => exact fun hne => absurd rfl hne
  | opaque_obj t => exact fun hne => absurd rfl hne
  | floatSame b m => exact fun hne => absurd rfl hne
  | tupleNil => exact fun hne => absurd rfl hne
  | fsetNil => exact fun hne => absurd rfl hne
  | floatZero b b2 =>
    intro hne
    have hbb : b ≠ b2 := fun hb => hne (by rw [hb])
    cases b <;> cases b2
    · exact absurd rfl hbb
    · simp [get_const_key, keyEq, pysign]
    · simp [get_const_key, keyEq, pysign]
    · exact absurd rfl hbb
  | cpx br br2 bi bi2 mr mi hre him =>
    intro hne
    have hd : br ≠ br2 ∨ bi ≠ bi2 := by
      by_contra hcon
      push_neg at hcon
      exact hne (by rw [hcon.1, hcon.2])
    rcases hd with hd | hd
    · have hmr : mr = 0 := by
        rcases hre with h0 | h0
        · exact h0
        · exact absurd h0 hd
      have hs : decide (pysign br = pysign br2) = false := by
        apply decide_eq_false
        cases br <;> cases br2
        · exact absurd rfl hd
        · simp [pysign]
        · simp [pysign]
        · exact absurd rfl hd
      simp [get_const_key, keyEq, hs]
    · have hmi : mi = 0 := by
        rcases him with h0 | h0
        · exact h0
        · exact absurd h0 hd
      have hs : decide (pysign bi = pysign bi2) = false := by
        apply decide_eq_false
        cases bi <;> cases bi2
        · exact absurd rfl hd
        · simp [pysign]
        · simp [pysign]
        · exact absurd rfl hd
      simp [get_const_key, keyEq, hs]
  | tupleCons x y xs ys hxy hxs ih1 ih2 =>
    intro hne
    by_cases hxy2 : x = y
    · have hts : PyVal.tuple xs ≠ PyVal.tuple ys := by
        intro hcon
        injection hcon with e
        exact hne (by rw [hxy2, e])
      have hpy2 : pyEq (.tuple xs) (.tuple ys) = true := zsv_pyEq hxs
      have hlist : keyEqList (get_const_key_list xs) (get_const_key_list ys)
          = false := by
        have hk2 := ih2 hts
        simpa [get_const_key, keyEq, hpy2] using hk2
      simp [get_const_key, keyEq, keyEqList, hlist]
    · have hk1 := ih1 hxy2
      simp [get_const_key, keyEq, keyEqList, hk1]
  | fsetCons x y xs ys hxy hxs ih1 ih2 =>
    intro hne
    by_cases hxy2 : x = y
    · have hts : PyVal.frozenset xs ≠ PyVal.frozenset ys := by
        intro hcon
        injection hcon with e
        exact hne (by rw [hxy2, e])
      have hpy2 : pyEq (.frozenset xs) (.frozenset ys) = true := zsv_pyEq hxs
      have hlist : keyEqList (get_const_key_list xs) (get_const_key_list ys)
          = false := by
        have hk2 := ih2 hts
        simpa [get_const_key, keyEq, hpy2] using hk2
      simp [get_const_key, keyEq, keyEqList, hlist]
    · have hk1 := ih1 hxy2
      simp [get_const_key, keyEq, keyEqList, hk1]

/-- C8: `get_const_key` maps `0.0` and `-0.0` - Python-equal values - to
distinct keys, and any two tuples that are Python-equal but differ only in
the sign of a possibly nested zero element receive distinct keys through the
recursive embedding of element keys. -/
theorem const_key_distinguishes_zero_signs :
    keyEq (get_const_key (.float false 0)) (get_const_key (.float true 0))
        = false
    ∧ pyEq (.float false 0) (.float true 0) = true
    ∧ ∀ xs ys : List PyVal, ZSV (.tuple xs) (.tuple ys) →
        PyVal.tuple xs ≠ PyVal.tuple ys →
        pyEq (.tuple xs) (.tuple ys) = true
        ∧ keyEq (get_const_key (.tuple xs)) (get_const_key (.tuple ys))
            = false := by
  refine ⟨?_, ?_, fun xs ys h hne => ⟨zsv_pyEq h, zsv_key h hne⟩⟩
  · simp [get_const_key, keyEq, pysign]
  · simp [pyEq, floatVal]

/-- Witness for C8: the singleton tuples containing `0.0` and `-0.0` are
Python-equal with distinct keys. -/
theorem const_key_distinguishes_zero_signs_witness :
    pyEq (.tuple [.float false 0]) (.tuple [.float true 0]) = true
    ∧ keyEq (get_const_key (.tuple [.float false 0]))
        (get_const_key (.tuple [.float true 0])) = false :=
  const_key_distinguishes_zero_signs.2.2 [.float false 0] [.float true 0]
    (ZSV.tupleCons _ _ _ _ (ZSV.floatZero false true) ZSV.tupleNil)
    (by simp)
